import Mathlib

/-!
Verification of the matrix-index translation and rebuild layer of
`swolfpy/LCA_matrix.py` (class `LCA_matrix` and its static update helpers).

The Python code is shallowly embedded: Python `dict`s become insertion-ordered
association lists, Python floats become an explicit `PyFloat` type with a NaN
element (the code performs no arithmetic on stored amounts, only storage,
`!=` comparison and `np.isnan` tests), and Python exceptions become an error
component threaded through each operation together with the partially mutated
table (Python exceptions leave already-applied dict mutations in place).
-/

namespace Swolfpy


/-- Model of a Python float as used by `LCA_matrix`: either NaN or a plain
number.  The code only stores amounts, compares them with `!=` and tests
`np.isnan`, so rationals suffice as the carrier of non-NaN values. -/
inductive PyFloat where
  | nan : PyFloat
  | num : ℚ → PyFloat
deriving DecidableEq, Repr

/-- Model of `np.isnan`. -/
def PyFloat.isnan : PyFloat → Bool
  | .nan => true
  | .num _ => false

/-- Python `!=` on floats: NaN is unequal to everything, itself included. -/
def pyNe : PyFloat → PyFloat → Bool
  | .nan, _ => true
  | _, .nan => true
  | .num a, .num b => decide (a ≠ b)

/-- Python `+` on floats (used only when scipy sums duplicate COO cells). -/
def pyAdd : PyFloat → PyFloat → PyFloat
  | .nan, _ => .nan
  | _, .nan => .nan
  | .num a, .num b => .num (a + b)

/-- A Brightway two-part key `(database, code)`, e.g. `('LF', 'Aerobic_Residual')`. -/
abbrev SKey := String × String

/-- Key of `tech_matrix`: `(product_key, activity_key)`. -/
abbrev TechKey := SKey × SKey

/-- First half of a `bio_matrix` key: either an ordinary biosphere-flow key
(a two-part tuple) or, for the defensive duplicate-flow branch of
`LCA_matrix.__init__`, the Python string `str(bio_key) + " - 1"`. -/
abbrev BFst := Sum SKey String

/-- Key of `bio_matrix`: `(biosphere_key, activity_key)`. -/
abbrev BioKey := BFst × SKey

/-- Decidability of list membership for `BioKey` (instance synthesis for sum
types is otherwise stuck in this Mathlib snapshot). -/
def decMemBio : (x : BioKey) → (l : List BioKey) → Decidable (x ∈ l)
  | _, [] => isFalse (List.not_mem_nil _)
  | x, y :: ys =>
      if h : y = x then isTrue (by rw [h]; exact List.mem_cons_self x ys)
      else
        match decMemBio x ys with
        | isTrue hm => isTrue (List.mem_cons_of_mem y hm)
        | isFalse hm => isFalse (fun hx => by
            rcases List.mem_cons.mp hx with h1 | h1
            · exact h h1.symm
            · exact hm h1)

instance (x : BioKey) (l : List BioKey) : Decidable (x ∈ l) := decMemBio x l

/-- A counterpart key under the `"Waste"` grouping of a report: dynamically a
Python value that is either a plain string or a two-part tuple (the code
concatenates it to a string, which raises `TypeError` on a tuple). -/
abbrev WKey := Sum String SKey

/-- Python exceptions raised by this module, distinguished by raise site:
`keyError` is the missing-exchange `KeyError` (spec kind `UnknownExchange`),
`valueError` the NaN `ValueError` (spec kind `InvalidValue`),
`lengthMismatch` the `ValueError` raised by scipy's coordinate/data length
precondition inside sparse construction (spec kind `InvalidArgument`),
`typeError` a `str + tuple` concatenation `TypeError`, and
`unboundLocal` an `UnboundLocalError` for a read of an unassigned local. -/
inductive PyErr where
  | keyError : PyErr
  | valueError : PyErr
  | lengthMismatch : PyErr
  | typeError : PyErr
  | unboundLocal : PyErr
deriving DecidableEq, Repr

/-- A Python `dict` as an insertion-ordered association list. -/
abbrev PyDict (κ α : Type) := List (κ × α)

variable {κ α : Type} [DecidableEq κ]

/-- Lookup `d[k]` (first — and with `dset`-maintained dicts only — binding wins). -/
def dget : PyDict κ α → κ → Option α
  | [], _ => none
  | (k', v) :: rest, k => if k' = k then some v else dget rest k

/-- Membership `k in d.keys()`. -/
def dmem (d : PyDict κ α) (k : κ) : Bool :=
  (dget d k).isSome

/-- Assignment `d[k] = v`: update in place if the key is present, else append at the end
(Python dicts preserve insertion order). -/
def dset : PyDict κ α → κ → α → PyDict κ α
  | [], k, v => [(k, v)]
  | (k', v') :: rest, k, v =>
      if k' = k then (k, v) :: rest else (k', v') :: dset rest k v

/-- Key sequence `list(d.keys())`. -/
def dkeys (d : PyDict κ α) : List κ :=
  d.map Prod.fst

/-- One non-zero cell of a sparse matrix in COO form. -/
structure CooEntry where
  row : Nat
  col : Nat
  val : PyFloat
deriving DecidableEq, Repr

/-- A compressed sparse matrix, taken extensionally: its shape and the value
stored at each coordinate (implicit zero where no entry is stored). -/
structure CSR where
  shape : Nat × Nat
  entry : Nat → Nat → PyFloat

/-- Value of the matrix assembled from COO entries at cell `(i, j)`: scipy
sums duplicate coordinates, absent coordinates are zero. -/
def cooSum (entries : List CooEntry) (i j : Nat) : PyFloat :=
  (entries.filter fun e => e.row == i && e.col == j).foldl
    (fun a e => pyAdd a e.val) (PyFloat.num 0)

/-- Zip parallel `rows`, `cols`, `values` arrays into COO entries. -/
def zipEntries (rows cols : List Nat) (values : List PyFloat) : List CooEntry :=
  (rows.zip (cols.zip values)).map fun p => ⟨p.1, p.2.1, p.2.2⟩

/-- Model of `scipy.sparse.csr_matrix((values, (rows, cols)), shape=shape)`: scipy
validates that the three parallel arrays have equal length before any matrix
is constructed (raising `ValueError` otherwise), then sums duplicates. -/
def csrFromCoo (rows cols : List Nat) (values : List PyFloat) (shape : Nat × Nat) :
    Except PyErr CSR :=
  if rows.length = cols.length ∧ values.length = rows.length then
    .ok { shape := shape, entry := fun i j => cooSum (zipEntries rows cols values) i j }
  else
    .error .lengthMismatch

/-- Composite key of a technosphere COO entry:
`(self.dicts.product.reversed[i], self.dicts.activity.reversed[j])`. -/
def techKeyOf (prodRev actRev : Nat → SKey) (e : CooEntry) : TechKey :=
  (prodRev e.row, actRev e.col)

/-- Embedding of `LCA_matrix.__init__` lines 54-58: build `self.tech_matrix` from the
technosphere COO entries in traversal order. -/
def build_tech_matrix (prodRev actRev : Nat → SKey) (entries : List CooEntry) :
    PyDict TechKey PyFloat :=
  entries.foldl (fun d e => dset d (techKeyOf prodRev actRev e) e.val) []

/-- Python `str()` of a two-part tuple of strings. -/
def pyStrPair (k : SKey) : String :=
  "(\x27" ++ k.1 ++ "\x27, \x27" ++ k.2 ++ "\x27)"

/-- Composite key of a biosphere COO entry. -/
def bioKeyOf (bioRev actRev : Nat → SKey) (e : CooEntry) : BioKey :=
  (Sum.inl (bioRev e.row), actRev e.col)

/-- The key `(str(bio_key) + " - 1", col_key)`: the defensive disambiguated key used
on a duplicate biosphere composite key. -/
def disambKeyOf (bioRev actRev : Nat → SKey) (e : CooEntry) : BioKey :=
  (Sum.inr (pyStrPair (bioRev e.row) ++ " - 1"), actRev e.col)

/-- Loop body state of `__init__` lines 66-77: accumulated `bio_matrix` dict
and the `_bio_seen` set (only original keys are ever added to the set). -/
def build_bio_matrix_go (bioRev actRev : Nat → SKey)
    (d : PyDict BioKey PyFloat) (seen : List BioKey) :
    List CooEntry → PyDict BioKey PyFloat
  | [] => d
  | e :: rest =>
      let k := bioKeyOf bioRev actRev e
      if seen.contains k then
        build_bio_matrix_go bioRev actRev (dset d (disambKeyOf bioRev actRev e) e.val) seen rest
      else
        build_bio_matrix_go bioRev actRev (dset d k e.val) (k :: seen) rest

/-- Embedding of `LCA_matrix.__init__` lines 66-77: build `self.bio_matrix` with the
duplicate-flow disambiguation branch. -/
def build_bio_matrix (bioRev actRev : Nat → SKey) (entries : List CooEntry) :
    PyDict BioKey PyFloat :=
  build_bio_matrix_go bioRev actRev [] [] entries

/-- The key under which each biosphere COO entry ends up being stored, in
entry order (original key on first occurrence, disambiguated key afterwards). -/
def bio_final_keys_go (bioRev actRev : Nat → SKey) (seen : List BioKey) :
    List CooEntry → List BioKey
  | [] => []
  | e :: rest =>
      let k := bioKeyOf bioRev actRev e
      if seen.contains k then
        disambKeyOf bioRev actRev e :: bio_final_keys_go bioRev actRev seen rest
      else
        k :: bio_final_keys_go bioRev actRev (k :: seen) rest

/-- Storage keys of all biosphere COO entries, in entry order. -/
def bio_final_keys (bioRev actRev : Nat → SKey) (entries : List CooEntry) : List BioKey :=
  bio_final_keys_go bioRev actRev [] entries

/-- Embedding of `LCA_matrix.rebuild_technosphere_matrix`: rebuild the technosphere matrix
from the captured coordinate arrays, the captured shape, and a caller-supplied
ordered value array. -/
def rebuild_technosphere_matrix (rows cols : List Nat) (shape : Nat × Nat)
    (values : List PyFloat) : Except PyErr CSR :=
  csrFromCoo rows cols values shape

/-- Embedding of `LCA_matrix.rebuild_biosphere_matrix`: same construction on the biosphere
coordinate arrays and shape. -/
def rebuild_biosphere_matrix (rows cols : List Nat) (shape : Nat × Nat)
    (values : List PyFloat) : Except PyErr CSR :=
  csrFromCoo rows cols values shape

/-- The optional `"LCI"` grouping: sub-process → sub-sub-process → flow key →
amount. -/
abbrev LciDict := PyDict String (PyDict String (PyDict SKey PyFloat))

/-- A process-model report as consumed by the two update appliers.
`processFamily` is `report_dict["process name"][1]`. -/
structure Report where
  processFamily : String
  technosphere : PyDict String (PyDict SKey PyFloat)
  waste : PyDict String (PyDict WKey PyFloat)
  biosphere : PyDict String (PyDict SKey PyFloat)
  lci : Option LciDict

abbrev TTable := PyDict TechKey PyFloat

abbrev BTable := PyDict BioKey PyFloat

/-- Run loop-body `f` over a list, threading state `s`; a raised error aborts
the loop, leaving the state as mutated so far (Python exception semantics). -/
def runSteps {σ β : Type} (f : σ → β → σ × Option PyErr) :
    σ → List β → σ × Option PyErr
  | s, [] => (s, none)
  | s, x :: xs =>
      match f s x with
      | (s', none) => runSteps f s' xs
      | (s', some e) => (s', some e)

/-- The validation/mutation block shared verbatim by every grouping of both
appliers (`LCA_matrix.py` lines 136-151 and its clones): reject NaN with
`ValueError`, reject a key missing from the table with `KeyError`, overwrite
on differing value, no-op on equal value. -/
def applyGuarded (k : κ) (v : PyFloat) (t : PyDict κ PyFloat) :
    PyDict κ PyFloat × Option PyErr :=
  if v.isnan then (t, some PyErr.valueError)
  else
    match dget t k with
    | some old => if pyNe old v then (dset t k v, none) else (t, none)
    | none => (t, some PyErr.keyError)

/-- One `(key2, value2)` iteration of the `"Technosphere"` loop (lines
134-151): target key `(key2, (process_name, material))`. -/
def techEntryStep (pname mat : String) (t : TTable) (kv : SKey × PyFloat) :
    TTable × Option PyErr :=
  applyGuarded (kv.1, (pname, mat)) kv.2 t

/-- One `(material, value)` iteration of the `"Technosphere"` loop. -/
def techMaterialStep (pname : String) (t : TTable) (mv : String × PyDict SKey PyFloat) :
    TTable × Option PyErr :=
  runSteps (techEntryStep pname mv.1) t mv.2

/-- Lines 155-162: the Transfer-Station prefix-stripping block.  `prev` is the
current value of the local variable `material_` (`none` while unbound); when
the process family is `Transfer_Station` and no prefix matches, no branch
assigns and the stale value is left in place. -/
def stripTS (family mat : String) (prev : Option String) : Option String :=
  if family = "Transfer_Station" then
    if mat.take 6 = "DryRes" ∨ mat.take 6 = "WetRes" then some (mat.drop 7)
    else if mat.take 3 = "ORG" ∨ mat.take 3 = "REC" then some (mat.drop 4)
    else prev
  else some mat

/-- One `(key2, value2)` iteration of the `"Waste"` loop (lines 153-180),
threading `(table, material_)`.  Line 163 evaluates
`material_ + "_" + key2`: reading an unbound `material_` raises
`UnboundLocalError`; concatenating a tuple `key2` raises `TypeError`. -/
def wasteEntryStep (pname family mat : String) (st : TTable × Option String)
    (kv : WKey × PyFloat) : (TTable × Option String) × Option PyErr :=
  match stripTS family mat st.2 with
  | none => (st, some PyErr.unboundLocal)
  | some m =>
      match kv.1 with
      | Sum.inr _ => ((st.1, some m), some PyErr.typeError)
      | Sum.inl s =>
          match applyGuarded ((pname ++ "_product", m ++ "_" ++ s), (pname, mat)) kv.2 st.1 with
          | (t', e) => ((t', some m), e)

/-- Test `"biosphere3" in n` for a two-part tuple `n`: Python tuple membership,
true when either component equals `"biosphere3"`. -/
def bioInKey (n : SKey) : Bool :=
  n.1 == "biosphere3" || n.2 == "biosphere3"

/-- Flatten an `"LCI"` grouping into `(y, m, n, value)` leaves in the nested
iteration order of lines 184-186. -/
def lciPairs (L : LciDict) : List (String × String × SKey × PyFloat) :=
  L.flatMap fun ym => ym.2.flatMap fun mn => mn.2.map fun nv => (ym.1, mn.1, nv.1, nv.2)

/-- One leaf of the technosphere `"LCI"` block (lines 183-238): leaves whose
flow key contains `"biosphere3"` are skipped; otherwise target key
`(n, (process_name + "_product", y + "_to_" + m))`. -/
def lciTechStep (pname : String) (t : TTable) (p : String × String × SKey × PyFloat) :
    TTable × Option PyErr :=
  match p with
  | (y, m, n, v) =>
      if bioInKey n then (t, none)
      else applyGuarded (n, (pname ++ "_product", y ++ "_" ++ "to" ++ "_" ++ m)) v t

/-- One `(material, value)` iteration of the `"Waste"` loop, including the
`"LCI"` block, which is nested inside this loop (indentation level 12,
lines 182-238) and therefore runs once per `"Waste"` material. -/
def wasteMaterialStep (pname family : String) (lci : Option LciDict)
    (st : TTable × Option String) (mv : String × PyDict WKey PyFloat) :
    (TTable × Option String) × Option PyErr :=
  match runSteps (wasteEntryStep pname family mv.1) st mv.2 with
  | (st', some e) => (st', some e)
  | (st', none) =>
      match lci with
      | none => (st', none)
      | some L =>
          match runSteps (lciTechStep pname) st'.1 (lciPairs L) with
          | (t2, r) => ((t2, st'.2), r)

/-- Embedding of `LCA_matrix.update_techmatrix` (lines 117-238): the `"Technosphere"` loop
followed by the `"Waste"` loop (with its nested `"LCI"` block); the local
`material_` starts unbound.  Returns the mutated table together with the
raised exception, if any. -/
def update_techmatrix (pname : String) (r : Report) (t : TTable) :
    TTable × Option PyErr :=
  match runSteps (techMaterialStep pname) t r.technosphere with
  | (t1, some e) => (t1, some e)
  | (t1, none) =>
      match runSteps (wasteMaterialStep pname r.processFamily r.lci)
          (t1, (none : Option String)) r.waste with
      | (st, e) => (st.1, e)

/-- One `(key2, value2)` iteration of the `"Biosphere"` loop (lines 257-267):
target key `(key2, (process_name, material))`; the missing-key failure here is
the raw `KeyError` of the unguarded `bio_matrix[...]` lookup on line 260,
raised after the NaN test exactly as in `applyGuarded`. -/
def bioEntryStep (pname mat : String) (t : BTable) (kv : SKey × PyFloat) :
    BTable × Option PyErr :=
  applyGuarded (Sum.inl kv.1, (pname, mat)) kv.2 t

/-- One leaf of the biosphere `"LCI"` block (lines 269-324): only leaves whose
flow key contains `"biosphere3"` are processed. -/
def lciBioStep (pname : String) (t : BTable) (p : String × String × SKey × PyFloat) :
    BTable × Option PyErr :=
  match p with
  | (y, m, n, v) =>
      if bioInKey n then
        applyGuarded (Sum.inl n, (pname ++ "_product", y ++ "_" ++ "to" ++ "_" ++ m)) v t
      else (t, none)

/-- One `(material, value)` iteration of the `"Biosphere"` loop, including the
`"LCI"` block, which is nested inside this loop (indentation level 12,
lines 268-324) and therefore runs once per `"Biosphere"` material. -/
def bioMaterialStep (pname : String) (lci : Option LciDict) (t : BTable)
    (mv : String × PyDict SKey PyFloat) : BTable × Option PyErr :=
  match runSteps (bioEntryStep pname mv.1) t mv.2 with
  | (t', some e) => (t', some e)
  | (t', none) =>
      match lci with
      | none => (t', none)
      | some L => runSteps (lciBioStep pname) t' (lciPairs L)

/-- Embedding of `LCA_matrix.update_biomatrix` (lines 240-324). -/
def update_biomatrix (pname : String) (r : Report) (b : BTable) :
    BTable × Option PyErr :=
  runSteps (bioMaterialStep pname r.lci) b r.biosphere

/-! ### Sequences of writes -/

/-- Apply a sequence of dictionary writes in order. -/
def foldDsets (t : PyDict κ α) (ws : List (κ × α)) : PyDict κ α :=
  ws.foldl (fun d w => dset d w.1 w.2) t

/-- The last value a write sequence assigns to `k`, if any. -/
def lastVal : List (κ × α) → κ → Option α
  | [], _ => none
  | w :: ws, k =>
      match lastVal ws k with
      | some v => some v
      | none => if w.1 = k then some w.2 else none

/-! ### Normal form of the appliers: key-preserving sequences of writes

`GoodFun F` says the table transformer `F` never changes the key sequence,
and that a successful run is exactly a sequence of writes to existing keys,
the same sequence for every start table with the same keys.  `GoodFunS` is
the analog for transformers threading extra (table-independent) local state,
as the `"Waste"` loop does with the Python local `material_`. -/

def GoodFun (F : PyDict κ PyFloat → PyDict κ PyFloat × Option PyErr) : Prop :=
  (∀ t, dkeys (F t).1 = dkeys t) ∧
  (∀ t t', F t = (t', none) →
    ∃ ws, (∀ w ∈ ws, w.1 ∈ dkeys t) ∧ t' = foldDsets t ws ∧
      ∀ s, dkeys s = dkeys t → F s = (foldDsets s ws, none))

def GoodFunS {σ : Type} (F : PyDict κ PyFloat × σ → (PyDict κ PyFloat × σ) × Option PyErr) :
    Prop :=
  (∀ t a, dkeys ((F (t, a)).1.1) = dkeys t) ∧
  (∀ t a t' a', F (t, a) = ((t', a'), none) →
    ∃ ws, (∀ w ∈ ws, w.1 ∈ dkeys t) ∧ t' = foldDsets t ws ∧
      ∀ s, dkeys s = dkeys t → F (s, a) = ((foldDsets s ws, a'), none))

/-- Run `F`, and on success run `G` on its result (Python statement sequencing
with exception propagation). -/
def seqF (F G : PyDict κ PyFloat → PyDict κ PyFloat × Option PyErr)
    (t : PyDict κ PyFloat) : PyDict κ PyFloat × Option PyErr :=
  match F t with
  | (t1, none) => G t1
  | (t1, some e) => (t1, some e)

/-- Lift a stateless transformer to one threading extra state unchanged. -/
def liftF {σ : Type} (F : PyDict κ PyFloat → PyDict κ PyFloat × Option PyErr)
    (st : PyDict κ PyFloat × σ) : (PyDict κ PyFloat × σ) × Option PyErr :=
  match F st.1 with
  | (t', e) => ((t', st.2), e)

/-- Stateful sequencing with exception propagation. -/
def seqFS {σ : Type} (F G : PyDict κ PyFloat × σ → (PyDict κ PyFloat × σ) × Option PyErr)
    (st : PyDict κ PyFloat × σ) : (PyDict κ PyFloat × σ) × Option PyErr :=
  match F st with
  | (st', none) => G st'
  | (st', some e) => (st', some e)

/-- The `"LCI"` block of `update_techmatrix` as a table transformer (runs only
when the report has an `"LCI"` grouping). -/
def lciTechPart (pname : String) (lci : Option LciDict) (t : TTable) :
    TTable × Option PyErr :=
  match lci with
  | none => (t, none)
  | some L => runSteps (lciTechStep pname) t (lciPairs L)

/-- The `"LCI"` block of `update_biomatrix` as a table transformer. -/
def lciBioPart (pname : String) (lci : Option LciDict) (b : BTable) :
    BTable × Option PyErr :=
  match lci with
  | none => (b, none)
  | some L => runSteps (lciBioStep pname) b (lciPairs L)

/-- The whole `"Waste"` loop of `update_techmatrix` as a table transformer,
starting with the Python local `material_` unbound. -/
def wasteSection (pname fam : String) (lci : Option LciDict)
    (waste : PyDict String (PyDict WKey PyFloat)) (t : TTable) : TTable × Option PyErr :=
  match runSteps (wasteMaterialStep pname fam lci) (t, (none : Option String)) waste with
  | (st, e) => (st.1, e)

/-- Entry-level writes of one material of the `"Technosphere"` grouping. -/
def techEntryWrites (pname mat : String) (es : PyDict SKey PyFloat) :
    List (TechKey × PyFloat) :=
  es.map fun kv => ((kv.1, (pname, mat)), kv.2)

/-- All writes of a `"Technosphere"` grouping. -/
def techWrites (pname : String) (ms : PyDict String (PyDict SKey PyFloat)) :
    List (TechKey × PyFloat) :=
  ms.flatMap fun mv => techEntryWrites pname mv.1 mv.2

/-- Entry-level writes of one material of the `"Biosphere"` grouping. -/
def bioEntryWrites (pname mat : String) (es : PyDict SKey PyFloat) :
    List (BioKey × PyFloat) :=
  es.map fun kv => ((Sum.inl kv.1, (pname, mat)), kv.2)

/-- All writes of a `"Biosphere"` grouping. -/
def bioWrites (pname : String) (ms : PyDict String (PyDict SKey PyFloat)) :
    List (BioKey × PyFloat) :=
  ms.flatMap fun mv => bioEntryWrites pname mv.1 mv.2

/-- Target key of a technosphere `"LCI"` leaf `(y, m, n, v)`. -/
def lciTechKey (pname : String) (p : String × String × SKey × PyFloat) : TechKey :=
  (p.2.2.1, (pname ++ "_product", p.1 ++ "_" ++ "to" ++ "_" ++ p.2.1))

/-- Writes of the technosphere `"LCI"` block: non-biosphere leaves only. -/
def lciTechWrites (pname : String) (ps : List (String × String × SKey × PyFloat)) :
    List (TechKey × PyFloat) :=
  (ps.filter fun p => !(bioInKey p.2.2.1)).map fun p => (lciTechKey pname p, p.2.2.2)

/-- Target key of a biosphere `"LCI"` leaf. -/
def lciBioKey (pname : String) (p : String × String × SKey × PyFloat) : BioKey :=
  (Sum.inl p.2.2.1, (pname ++ "_product", p.1 ++ "_" ++ "to" ++ "_" ++ p.2.1))

/-- Embed string-keyed waste entries (the shape produced by the process
models) into the dynamically-typed counterpart-key type. -/
def wasteInl (es : PyDict String PyFloat) : PyDict WKey PyFloat :=
  es.map fun kv => (Sum.inl kv.1, kv.2)

/-- Waste writes of one material for a non-Transfer-Station family. -/
def wasteWritesNoTS (pname mat : String) (es : PyDict String PyFloat) :
    List (TechKey × PyFloat) :=
  es.map fun kv => ((((pname ++ "_product", mat ++ "_" ++ kv.1), (pname, mat)) : TechKey), kv.2)

/-! ### Sequences of applier calls -/

/-- One call of an update applier (the driver pattern of Monte Carlo and
optimization loops). -/
inductive UpdateCall where
  | tech (pname : String) (r : Report) : UpdateCall
  | bio (pname : String) (r : Report) : UpdateCall

/-- Execute one applier call against the pair of tables, keeping the mutated
table whether the call completes or aborts with an error. -/
def execCall : TTable × BTable → UpdateCall → TTable × BTable
  | (t, b), .tech pname r => ((update_techmatrix pname r t).1, b)
  | (t, b), .bio pname r => (t, (update_biomatrix pname r b).1)

/-- Execute a sequence of applier calls. -/
def execCalls : TTable × BTable → List UpdateCall → TTable × BTable :=
  List.foldl execCall

/-- The `"Waste"` loop resumed from an intermediate `(table, material_)` state. -/
def wasteSectionFrom (pname fam : String) (lci : Option LciDict)
    (st : TTable × Option String) (ms : PyDict String (PyDict WKey PyFloat)) :
    TTable × Option PyErr :=
  match runSteps (wasteMaterialStep pname fam lci) st ms with
  | (st2, e2) => (st2.1, e2)

/-! ### Theorems -/

/-! ### Association-list dictionary lemmas -/

theorem dget_dset_self (d : PyDict κ α) (k : κ) (v : α) :
    dget (dset d k v) k = some v := by
  induction d with
  | nil => simp [dset, dget]
  | cons p rest ih =>
      by_cases h : p.1 = k
      · simp [dset, dget, h]
      · simp [dset, dget, h, ih]

theorem dget_dset_ne (d : PyDict κ α) {k k' : κ} (v : α) (h : k' ≠ k) :
    dget (dset d k v) k' = dget d k' := by
  have hk : ¬(k = k') := fun hh => h hh.symm
  induction d with
  | nil => simp [dset, dget, hk]
  | cons p rest ih =>
      by_cases hp : p.1 = k
      · simp [dset, dget, hp, hk]
      · simp [dset, dget, hp, ih]

theorem dget_eq_none_of_not_mem {d : PyDict κ α} {k : κ} (h : k ∉ dkeys d) :
    dget d k = none := by
  induction d with
  | nil => rfl
  | cons p rest ih =>
      simp only [dkeys, List.map_cons, List.mem_cons, not_or] at h
      have hp : ¬(p.1 = k) := fun hh => h.1 hh.symm
      simp [dget, hp, ih (by simpa [dkeys] using h.2)]

theorem mem_dkeys_of_dget {d : PyDict κ α} {k : κ} {v : α} (h : dget d k = some v) :
    k ∈ dkeys d := by
  by_contra hk
  rw [dget_eq_none_of_not_mem hk] at h
  exact Option.noConfusion h

theorem dget_isSome_of_mem {d : PyDict κ α} {k : κ} (h : k ∈ dkeys d) :
    ∃ v, dget d k = some v := by
  induction d with
  | nil => simp [dkeys] at h
  | cons p rest ih =>
      by_cases hp : p.1 = k
      · exact ⟨p.2, by simp [dget, hp]⟩
      · simp only [dkeys, List.map_cons, List.mem_cons] at h
        rcases h with h | h
        · exact absurd h.symm hp
        · simpa [dget, hp] using ih (by simpa [dkeys] using h)

theorem dkeys_dset_of_mem {d : PyDict κ α} {k : κ} (v : α) (h : k ∈ dkeys d) :
    dkeys (dset d k v) = dkeys d := by
  induction d with
  | nil => simp [dkeys] at h
  | cons p rest ih =>
      by_cases hp : p.1 = k
      · simp [dset, hp, dkeys]
      · simp only [dkeys, List.map_cons, List.mem_cons] at h
        rcases h with h | h
        · exact absurd h.symm hp
        · have h2 := ih (by simpa [dkeys] using h)
          simp only [dkeys] at h2
          simp only [dset, if_neg hp, dkeys, List.map_cons, List.cons.injEq]
          exact ⟨trivial, h2⟩

theorem dset_eq_of_dget {d : PyDict κ α} {k : κ} {v : α} (h : dget d k = some v) :
    dset d k v = d := by
  induction d with
  | nil => simp [dget] at h
  | cons p rest ih =>
      by_cases hp : p.1 = k
      · have hv : p.2 = v := by simpa [dget, hp] using h
        have hpk : (k, v) = p := by
          cases p
          simp_all
        simp only [dset, if_pos hp, hpk]
      · simp only [dget, if_neg hp] at h
        simp [dset, hp, ih h]

theorem dset_append_of_not_mem {d : PyDict κ α} {k : κ} (v : α) (h : k ∉ dkeys d) :
    dset d k v = d ++ [(k, v)] := by
  induction d with
  | nil => simp [dset]
  | cons p rest ih =>
      simp only [dkeys, List.map_cons, List.mem_cons, not_or] at h
      have hp : ¬(p.1 = k) := fun hh => h.1 hh.symm
      simp [dset, hp, ih (by simpa [dkeys] using h.2)]

/-- Pointwise-equal dicts with identical duplicate-free key sequences are equal. -/
theorem dict_ext {s t : PyDict κ α} (hk : dkeys s = dkeys t)
    (hnd : (dkeys t).Nodup) (hget : ∀ k, dget s k = dget t k) : s = t := by
  induction t generalizing s with
  | nil =>
      cases s with
      | nil => rfl
      | cons p r => simp [dkeys] at hk
  | cons p rest ih =>
      cases s with
      | nil => simp [dkeys] at hk
      | cons q r =>
          simp only [dkeys, List.map_cons, List.cons.injEq] at hk
          obtain ⟨hq, hr⟩ := hk
          simp only [dkeys, List.map_cons, List.nodup_cons] at hnd
          have hv : q.2 = p.2 := by
            have := hget p.1
            simpa [dget, hq, Option.some.injEq] using this
          have hrest : r = rest := by
            refine ih (by simpa [dkeys] using hr) hnd.2 ?_
            intro k
            by_cases hkp : k = p.1
            · have h1 : dget r k = none := by
                refine dget_eq_none_of_not_mem ?_
                rw [hkp]
                simpa [dkeys, hr] using hnd.1
              have h2 : dget rest k = none := by
                refine dget_eq_none_of_not_mem ?_
                rw [hkp]
                simpa [dkeys] using hnd.1
              rw [h1, h2]
            · have hpk : ¬(p.1 = k) := fun hh => hkp hh.symm
              have := hget k
              simpa [dget, hq, hpk] using this
          have hqp : q = p := Prod.ext_iff.mpr ⟨hq, hv⟩
          rw [hqp, hrest]

theorem foldDsets_nil (t : PyDict κ α) : foldDsets t [] = t := rfl

theorem foldDsets_cons (t : PyDict κ α) (w : κ × α) (ws : List (κ × α)) :
    foldDsets t (w :: ws) = foldDsets (dset t w.1 w.2) ws := rfl

theorem foldDsets_append (t : PyDict κ α) (ws₁ ws₂ : List (κ × α)) :
    foldDsets t (ws₁ ++ ws₂) = foldDsets (foldDsets t ws₁) ws₂ := by
  simp [foldDsets, List.foldl_append]

theorem dkeys_foldDsets {t : PyDict κ α} {ws : List (κ × α)}
    (h : ∀ w ∈ ws, w.1 ∈ dkeys t) : dkeys (foldDsets t ws) = dkeys t := by
  induction ws generalizing t with
  | nil => rfl
  | cons w ws ih =>
      rw [foldDsets_cons]
      have hw : w.1 ∈ dkeys t := h w (List.mem_cons_self w ws)
      have hk := dkeys_dset_of_mem (d := t) (k := w.1) w.2 hw
      rw [ih (fun u hu => by rw [hk]; exact h u (List.mem_cons_of_mem w hu)), hk]

theorem dget_foldDsets_of_lastVal_none {ws : List (κ × α)} {k : κ}
    (h : lastVal ws k = none) (t : PyDict κ α) :
    dget (foldDsets t ws) k = dget t k := by
  induction ws generalizing t with
  | nil => rfl
  | cons w ws ih =>
      rw [foldDsets_cons]
      have hnone : lastVal ws k = none := by
        cases hl : lastVal ws k with
        | none => rfl
        | some u => simp [lastVal, hl] at h
      have hw : ¬(w.1 = k) := by
        intro hw
        simp [lastVal, hnone, hw] at h
      rw [ih hnone, dget_dset_ne t w.2 (fun hh => hw hh.symm)]

theorem dget_foldDsets_of_lastVal_some {ws : List (κ × α)} {k : κ} {v : α}
    (h : lastVal ws k = some v) (t : PyDict κ α) :
    dget (foldDsets t ws) k = some v := by
  induction ws generalizing t with
  | nil => simp [lastVal] at h
  | cons w ws ih =>
      rw [foldDsets_cons]
      by_cases hlast : ∃ u, lastVal ws k = some u
      · obtain ⟨u, hu⟩ := hlast
        have huv : u = v := by
          simp only [lastVal, hu] at h
          injection h
        rw [huv] at hu
        exact ih hu _
      · have hnone : lastVal ws k = none := by
          cases hl : lastVal ws k with
          | none => rfl
          | some u => exact absurd ⟨u, hl⟩ hlast
        simp only [lastVal, hnone] at h
        by_cases hw : w.1 = k
        · simp only [if_pos hw] at h
          have hv : w.2 = v := by injection h
          have hrest := dget_foldDsets_of_lastVal_none hnone (dset t w.1 w.2)
          rw [hrest, hw, hv]
          exact dget_dset_self t k v
        · simp [if_neg hw] at h

/-- Replaying the same write sequence a second time changes nothing, provided
the dictionary's keys are duplicate-free and every write targets an existing
key. -/
theorem foldDsets_idem {t : PyDict κ α} {ws : List (κ × α)}
    (hmem : ∀ w ∈ ws, w.1 ∈ dkeys t) (hnd : (dkeys t).Nodup) :
    foldDsets (foldDsets t ws) ws = foldDsets t ws := by
  have hk1 : dkeys (foldDsets t ws) = dkeys t := dkeys_foldDsets hmem
  have hmem' : ∀ w ∈ ws, w.1 ∈ dkeys (foldDsets t ws) := fun w hw => by
    rw [hk1]; exact hmem w hw
  refine dict_ext (dkeys_foldDsets hmem') ?_ ?_
  · rw [hk1]; exact hnd
  · intro k
    cases hl : lastVal ws k with
    | some v =>
        rw [dget_foldDsets_of_lastVal_some hl, dget_foldDsets_of_lastVal_some hl]
    | none =>
        rw [dget_foldDsets_of_lastVal_none hl, dget_foldDsets_of_lastVal_none hl]

/-! ### The shared validation/mutation block -/

theorem eq_of_pyNe_false {a b : PyFloat} (h : pyNe a b = false) : a = b := by
  cases a with
  | nan => simp [pyNe] at h
  | num x =>
      cases b with
      | nan => simp [pyNe] at h
      | num y =>
          simp only [pyNe, decide_eq_false_iff_not, not_not] at h
          rw [h]

theorem applyGuarded_keys (k : κ) (v : PyFloat) (t : PyDict κ PyFloat) :
    dkeys (applyGuarded k v t).1 = dkeys t := by
  unfold applyGuarded
  by_cases hn : v.isnan
  · simp [hn]
  · simp only [hn, Bool.false_eq_true, if_false]
    cases hg : dget t k with
    | none => rfl
    | some old =>
        by_cases hne : pyNe old v
        · simpa [hne] using dkeys_dset_of_mem v (mem_dkeys_of_dget hg)
        · simp [hne]

theorem applyGuarded_ok {k : κ} {v : PyFloat} {t : PyDict κ PyFloat}
    (hn : v.isnan = false) (hm : k ∈ dkeys t) :
    applyGuarded k v t = (dset t k v, none) := by
  obtain ⟨old, hold⟩ := dget_isSome_of_mem hm
  unfold applyGuarded
  rw [hn]
  simp only [Bool.false_eq_true, if_false, hold]
  by_cases hne : pyNe old v
  · simp [hne]
  · have he : old = v := eq_of_pyNe_false (by simpa using hne)
    rw [he] at hold
    simp [hne, dset_eq_of_dget hold]

theorem applyGuarded_nan {k : κ} {v : PyFloat} (t : PyDict κ PyFloat)
    (hn : v.isnan = true) : applyGuarded k v t = (t, some PyErr.valueError) := by
  unfold applyGuarded
  simp [hn]

theorem applyGuarded_missing {k : κ} {v : PyFloat} {t : PyDict κ PyFloat}
    (hn : v.isnan = false) (hm : k ∉ dkeys t) :
    applyGuarded k v t = (t, some PyErr.keyError) := by
  unfold applyGuarded
  rw [hn]
  simp [dget_eq_none_of_not_mem hm]

theorem applyGuarded_none {k : κ} {v : PyFloat} {t t' : PyDict κ PyFloat}
    (h : applyGuarded k v t = (t', none)) :
    v.isnan = false ∧ k ∈ dkeys t ∧ t' = dset t k v := by
  by_cases hn : v.isnan
  · rw [applyGuarded_nan t hn] at h
    exact absurd (congrArg Prod.snd h) (by simp)
  · by_cases hm : k ∈ dkeys t
    · rw [applyGuarded_ok (by simpa using hn) hm] at h
      exact ⟨by simpa using hn, hm, (congrArg Prod.fst h).symm⟩
    · rw [applyGuarded_missing (by simpa using hn) hm] at h
      exact absurd (congrArg Prod.snd h) (by simp)

theorem good_applyGuarded (k : κ) (v : PyFloat) :
    GoodFun (fun t => applyGuarded k v t) := by
  constructor
  · intro t
    exact applyGuarded_keys k v t
  · intro t t' h
    obtain ⟨hn, hm, ht⟩ := applyGuarded_none h
    refine ⟨[(k, v)], ?_, ?_, ?_⟩
    · intro w hw
      rw [List.mem_singleton] at hw
      rw [hw]
      exact hm
    · simpa [foldDsets] using ht
    · intro s hs
      show applyGuarded k v s = (foldDsets s [(k, v)], none)
      rw [applyGuarded_ok hn (by rw [hs]; exact hm)]
      rfl

theorem good_noop : GoodFun (fun t : PyDict κ PyFloat => (t, none)) := by
  constructor
  · intro t
    rfl
  · intro t t' h
    refine ⟨[], ?_, ?_, ?_⟩
    · intro w hw
      simp at hw
    · simpa [foldDsets] using (congrArg Prod.fst h).symm
    · intro s _
      rfl

theorem good_seqF {F G : PyDict κ PyFloat → PyDict κ PyFloat × Option PyErr}
    (hF : GoodFun F) (hG : GoodFun G) : GoodFun (seqF F G) := by
  constructor
  · intro t
    unfold seqF
    cases hFt : F t with
    | mk t1 e =>
        have hk1 : dkeys t1 = dkeys t := by
          have := hF.1 t
          rw [hFt] at this
          exact this
        cases e with
        | none => exact (hG.1 t1).trans hk1
        | some e0 => exact hk1
  · intro t t' h
    unfold seqF at h
    cases hFt : F t with
    | mk t1 e =>
        rw [hFt] at h
        cases e with
        | some e0 =>
            have h' : (t1, some e0) = (t', Option.none (α := PyErr)) := h
            exact absurd (congrArg Prod.snd h') (by simp)
        | none =>
            have h' : G t1 = (t', none) := h
            obtain ⟨ws1, hws1, ht1, hF2⟩ := hF.2 t t1 hFt
            obtain ⟨ws2, hws2, ht', hG2⟩ := hG.2 t1 t' h'
            have hk1 : dkeys t1 = dkeys t := by rw [ht1]; exact dkeys_foldDsets hws1
            refine ⟨ws1 ++ ws2, ?_, ?_, ?_⟩
            · intro w hw
              rcases List.mem_append.mp hw with hw | hw
              · exact hws1 w hw
              · rw [← hk1]
                exact hws2 w hw
            · rw [foldDsets_append, ← ht1]
              exact ht'
            · intro s hs
              unfold seqF
              rw [hF2 s hs]
              have hks : dkeys (foldDsets s ws1) = dkeys t1 := by
                rw [dkeys_foldDsets (fun w hw => by rw [hs]; exact hws1 w hw), hs, hk1]
              show G (foldDsets s ws1) = (foldDsets s (ws1 ++ ws2), none)
              rw [hG2 _ hks, foldDsets_append]

theorem good_runSteps {β : Type} {f : PyDict κ PyFloat → β → PyDict κ PyFloat × Option PyErr}
    (hf : ∀ x, GoodFun (fun t => f t x)) (xs : List β) :
    GoodFun (fun t => runSteps f t xs) := by
  induction xs with
  | nil =>
      constructor
      · intro t
        rfl
      · intro t t' h
        refine ⟨[], by simp, ?_, fun s _ => ?_⟩
        · simpa [foldDsets, runSteps] using (congrArg Prod.fst h).symm
        · rfl
  | cons x xs ih =>
      constructor
      · intro t
        simp only [runSteps]
        cases hfx : f t x with
        | mk t1 e =>
            have hk1 : dkeys t1 = dkeys t := by
              have h0 : dkeys (f t x).1 = dkeys t := (hf x).1 t
              rw [hfx] at h0
              exact h0
            cases e with
            | none => exact (ih.1 t1).trans hk1
            | some e0 => exact hk1
      · intro t t' h
        simp only [runSteps] at h
        cases hfx : f t x with
        | mk t1 e =>
            rw [hfx] at h
            cases e with
            | some e0 =>
                have h' : (t1, some e0) = (t', Option.none (α := PyErr)) := h
                exact absurd (congrArg Prod.snd h') (by simp)
            | none =>
                have h' : runSteps f t1 xs = (t', none) := h
                obtain ⟨ws1, hws1, ht1, hf2⟩ := (hf x).2 t t1 hfx
                obtain ⟨ws2, hws2, ht', hih⟩ := ih.2 t1 t' h'
                have hk1 : dkeys t1 = dkeys t := by rw [ht1]; exact dkeys_foldDsets hws1
                refine ⟨ws1 ++ ws2, ?_, ?_, ?_⟩
                · intro w hw
                  rcases List.mem_append.mp hw with hw | hw
                  · exact hws1 w hw
                  · rw [← hk1]
                    exact hws2 w hw
                · rw [foldDsets_append, ← ht1]
                  exact ht'
                · intro s hs
                  have hf2h : f s x = (foldDsets s ws1, none) := hf2 s hs
                  show runSteps f s (x :: xs) = _
                  simp only [runSteps]
                  rw [hf2h]
                  have hks : dkeys (foldDsets s ws1) = dkeys t1 := by
                    rw [dkeys_foldDsets (fun w hw => by rw [hs]; exact hws1 w hw), hs, hk1]
                  have hihh : runSteps f (foldDsets s ws1) xs =
                      (foldDsets (foldDsets s ws1) ws2, none) := hih _ hks
                  show runSteps f (foldDsets s ws1) xs = _
                  rw [hihh, foldDsets_append]

theorem good_liftF {σ : Type} {F : PyDict κ PyFloat → PyDict κ PyFloat × Option PyErr}
    (hF : GoodFun F) : GoodFunS (σ := σ) (liftF F) := by
  constructor
  · intro t a
    unfold liftF
    cases hFt : F t with
    | mk t1 e =>
        have := hF.1 t
        rw [hFt] at this
        exact this
  · intro t a t' a' h
    unfold liftF at h
    cases hFt : F t with
    | mk t1 e =>
        rw [hFt] at h
        cases e with
        | some e0 => exact absurd (congrArg Prod.snd h) (by simp)
        | none =>
            have ht1 : t1 = t' := congrArg (Prod.fst ∘ Prod.fst) h
            have ha : a = a' := congrArg (Prod.snd ∘ Prod.fst) h
            obtain ⟨ws, h1, h2, h3⟩ := hF.2 t t' (ht1 ▸ hFt)
            refine ⟨ws, h1, h2, fun s hs => ?_⟩
            unfold liftF
            rw [h3 s hs, ← ha]

theorem good_seqFS {σ : Type}
    {F G : PyDict κ PyFloat × σ → (PyDict κ PyFloat × σ) × Option PyErr}
    (hF : GoodFunS F) (hG : GoodFunS G) : GoodFunS (seqFS F G) := by
  constructor
  · intro t a
    unfold seqFS
    cases hFt : F (t, a) with
    | mk st1 e =>
        have hk1 : dkeys st1.1 = dkeys t := by
          have := hF.1 t a
          rw [hFt] at this
          exact this
        cases e with
        | none =>
            have := hG.1 st1.1 st1.2
            rw [show ((st1.1, st1.2) : PyDict κ PyFloat × σ) = st1 from rfl] at this
            exact this.trans hk1
        | some e0 => exact hk1
  · intro t a t' a' h
    unfold seqFS at h
    cases hFt : F (t, a) with
    | mk st1 e =>
        rw [hFt] at h
        cases e with
        | some e0 => exact absurd (congrArg Prod.snd h) (by simp)
        | none =>
            have hG1 : G (st1.1, st1.2) = ((t', a'), none) := by
              rw [show ((st1.1, st1.2) : PyDict κ PyFloat × σ) = st1 from rfl]
              exact h
            have hFt2 : F (t, a) = ((st1.1, st1.2), none) := by rw [hFt]
            obtain ⟨ws1, hws1, ht1, hF2⟩ := hF.2 t a st1.1 st1.2 hFt2
            obtain ⟨ws2, hws2, ht', hG2⟩ := hG.2 st1.1 st1.2 t' a' hG1
            have hk1 : dkeys st1.1 = dkeys t := by rw [ht1]; exact dkeys_foldDsets hws1
            refine ⟨ws1 ++ ws2, ?_, ?_, ?_⟩
            · intro w hw
              rcases List.mem_append.mp hw with hw | hw
              · exact hws1 w hw
              · rw [← hk1]
                exact hws2 w hw
            · rw [foldDsets_append, ← ht1]
              exact ht'
            · intro s hs
              unfold seqFS
              rw [hF2 s hs]
              have hks : dkeys (foldDsets s ws1) = dkeys st1.1 := by
                rw [dkeys_foldDsets (fun w hw => by rw [hs]; exact hws1 w hw), hs, hk1]
              show G (foldDsets s ws1, st1.2) = ((foldDsets s (ws1 ++ ws2), a'), none)
              rw [hG2 _ hks, foldDsets_append]

theorem goodS_runSteps {σ β : Type}
    {g : PyDict κ PyFloat × σ → β → (PyDict κ PyFloat × σ) × Option PyErr}
    (hg : ∀ x, GoodFunS (fun st => g st x)) (xs : List β) :
    GoodFunS (fun st => runSteps g st xs) := by
  induction xs with
  | nil =>
      constructor
      · intro t a
        rfl
      · intro t a t' a' h
        have ht : t = t' := congrArg (Prod.fst ∘ Prod.fst) h
        have ha : a = a' := congrArg (Prod.snd ∘ Prod.fst) h
        refine ⟨[], by simp, by rw [foldDsets_nil, ht], fun s _ => ?_⟩
        rw [foldDsets_nil, ← ha]
        rfl
  | cons x xs ih =>
      constructor
      · intro t a
        simp only [runSteps]
        cases hgx : g (t, a) x with
        | mk st1 e =>
            have hk1 : dkeys st1.1 = dkeys t := by
              have h0 : dkeys ((g (t, a) x).1.1) = dkeys t := (hg x).1 t a
              rw [hgx] at h0
              exact h0
            cases e with
            | none =>
                have := ih.1 st1.1 st1.2
                rw [show ((st1.1, st1.2) : PyDict κ PyFloat × σ) = st1 from rfl] at this
                exact this.trans hk1
            | some e0 => exact hk1
      · intro t a t' a' h
        simp only [runSteps] at h
        cases hgx : g (t, a) x with
        | mk st1 e =>
            rw [hgx] at h
            cases e with
            | some e0 =>
                have h' : (st1, some e0) = ((t', a'), Option.none (α := PyErr)) := h
                exact absurd (congrArg Prod.snd h') (by simp)
            | none =>
                have h' : runSteps g (st1.1, st1.2) xs = ((t', a'), none) := by
                  rw [show ((st1.1, st1.2) : PyDict κ PyFloat × σ) = st1 from rfl]
                  exact h
                have hgx2 : g (t, a) x = ((st1.1, st1.2), none) := by rw [hgx]
                obtain ⟨ws1, hws1, ht1, hg2⟩ := (hg x).2 t a st1.1 st1.2 hgx2
                obtain ⟨ws2, hws2, ht', hih⟩ := ih.2 st1.1 st1.2 t' a' h'
                have hk1 : dkeys st1.1 = dkeys t := by rw [ht1]; exact dkeys_foldDsets hws1
                refine ⟨ws1 ++ ws2, ?_, ?_, ?_⟩
                · intro w hw
                  rcases List.mem_append.mp hw with hw | hw
                  · exact hws1 w hw
                  · rw [← hk1]
                    exact hws2 w hw
                · rw [foldDsets_append, ← ht1]
                  exact ht'
                · intro s hs
                  have hg2h : g (s, a) x = ((foldDsets s ws1, st1.2), none) := hg2 s hs
                  show runSteps g (s, a) (x :: xs) = _
                  simp only [runSteps]
                  rw [hg2h]
                  have hks : dkeys (foldDsets s ws1) = dkeys st1.1 := by
                    rw [dkeys_foldDsets (fun w hw => by rw [hs]; exact hws1 w hw), hs, hk1]
                  have hihh : runSteps g (foldDsets s ws1, st1.2) xs =
                      ((foldDsets (foldDsets s ws1) ws2, a'), none) := hih _ hks
                  show runSteps g (foldDsets s ws1, st1.2) xs = _
                  rw [hihh, foldDsets_append]

/-! ### The concrete steps are good -/

theorem good_techEntryStep (pname mat : String) (kv : SKey × PyFloat) :
    GoodFun (fun t => techEntryStep pname mat t kv) :=
  good_applyGuarded (kv.1, (pname, mat)) kv.2

theorem good_techMaterialStep (pname : String) (mv : String × PyDict SKey PyFloat) :
    GoodFun (fun t => techMaterialStep pname t mv) :=
  good_runSteps (fun kv => good_techEntryStep pname mv.1 kv) mv.2

theorem good_lciTechStep (pname : String) (p : String × String × SKey × PyFloat) :
    GoodFun (fun t => lciTechStep pname t p) := by
  obtain ⟨y, m, n, v⟩ := p
  by_cases hb : bioInKey n
  · have heq : (fun t : TTable => lciTechStep pname t (y, m, n, v)) =
        fun t : TTable => (t, none) := by
      funext t
      simp [lciTechStep, hb]
    rw [heq]
    exact good_noop
  · have heq : (fun t : TTable => lciTechStep pname t (y, m, n, v)) =
        fun t => applyGuarded (n, (pname ++ "_product", y ++ "_" ++ "to" ++ "_" ++ m)) v t := by
      funext t
      simp [lciTechStep, hb]
    rw [heq]
    exact good_applyGuarded _ v

theorem good_bioEntryStep (pname mat : String) (kv : SKey × PyFloat) :
    GoodFun (fun b => bioEntryStep pname mat b kv) :=
  good_applyGuarded (Sum.inl kv.1, (pname, mat)) kv.2

theorem good_lciBioStep (pname : String) (p : String × String × SKey × PyFloat) :
    GoodFun (fun b => lciBioStep pname b p) := by
  obtain ⟨y, m, n, v⟩ := p
  by_cases hb : bioInKey n
  · have heq : (fun b : BTable => lciBioStep pname b (y, m, n, v)) =
        fun b => applyGuarded (Sum.inl n, (pname ++ "_product", y ++ "_" ++ "to" ++ "_" ++ m)) v b := by
      funext b
      simp [lciBioStep, hb]
    rw [heq]
    exact good_applyGuarded _ v
  · have heq : (fun b : BTable => lciBioStep pname b (y, m, n, v)) =
        fun b : BTable => (b, none) := by
      funext b
      simp [lciBioStep, hb]
    rw [heq]
    exact good_noop

theorem goodS_wasteEntryStep (pname fam mat : String) (kv : WKey × PyFloat) :
    GoodFunS (fun st => wasteEntryStep pname fam mat st kv) := by
  obtain ⟨wk, v⟩ := kv
  constructor
  · intro t a
    simp only [wasteEntryStep]
    cases stripTS fam mat a with
    | none => rfl
    | some m =>
        cases wk with
        | inr p => rfl
        | inl str =>
            exact applyGuarded_keys ((pname ++ "_product", m ++ "_" ++ str), (pname, mat)) v t
  · intro t a t' a' h
    simp only [wasteEntryStep] at h
    cases hst : stripTS fam mat a with
    | none =>
        rw [hst] at h
        exact absurd (congrArg Prod.snd h) (by simp)
    | some m =>
        rw [hst] at h
        cases wk with
        | inr p =>
            have h' : (((t, some m) : TTable × Option String), some PyErr.typeError)
                = ((t', a'), Option.none (α := PyErr)) := h
            exact absurd (congrArg Prod.snd h') (by simp)
        | inl str =>
            have hsnd : (applyGuarded ((pname ++ "_product", m ++ "_" ++ str), (pname, mat)) v t).2
                = (none : Option PyErr) := congrArg Prod.snd h
            have hfst : (applyGuarded ((pname ++ "_product", m ++ "_" ++ str), (pname, mat)) v t).1
                = t' := congrArg (Prod.fst ∘ Prod.fst) h
            have ham : (some m : Option String) = a' := congrArg (Prod.snd ∘ Prod.fst) h
            have hap2 : applyGuarded ((pname ++ "_product", m ++ "_" ++ str), (pname, mat)) v t
                = (t', none) := by
              rw [← hfst, ← hsnd]
            obtain ⟨hn, hm, hd⟩ := applyGuarded_none hap2
            refine ⟨[(((pname ++ "_product", m ++ "_" ++ str), (pname, mat)), v)], ?_, ?_, ?_⟩
            · intro w hw
              rw [List.mem_singleton] at hw
              rw [hw]
              exact hm
            · simpa [foldDsets] using hd
            · intro s hs
              show wasteEntryStep pname fam mat (s, a) (Sum.inl str, v) = _
              simp only [wasteEntryStep]
              rw [hst]
              show (((applyGuarded ((pname ++ "_product", m ++ "_" ++ str), (pname, mat)) v s).1,
                    some m),
                    (applyGuarded ((pname ++ "_product", m ++ "_" ++ str), (pname, mat)) v s).2)
                  = ((foldDsets s [(((pname ++ "_product", m ++ "_" ++ str), (pname, mat)), v)], a'),
                    none)
              rw [applyGuarded_ok hn (by rw [hs]; exact hm), ← ham]
              rfl

theorem good_lciTechPart (pname : String) (lci : Option LciDict) :
    GoodFun (lciTechPart pname lci) := by
  cases lci with
  | none => exact good_noop
  | some L => exact good_runSteps (fun p => good_lciTechStep pname p) (lciPairs L)

theorem good_lciBioPart (pname : String) (lci : Option LciDict) :
    GoodFun (lciBioPart pname lci) := by
  cases lci with
  | none => exact good_noop
  | some L => exact good_runSteps (fun p => good_lciBioStep pname p) (lciPairs L)

theorem wasteMaterialStep_eq (pname fam : String) (lci : Option LciDict)
    (mv : String × PyDict WKey PyFloat) (st : TTable × Option String) :
    wasteMaterialStep pname fam lci st mv =
      seqFS (fun st' => runSteps (wasteEntryStep pname fam mv.1) st' mv.2)
        (liftF (lciTechPart pname lci)) st := by
  simp only [wasteMaterialStep, seqFS, liftF, lciTechPart]
  cases hrs : runSteps (wasteEntryStep pname fam mv.1) st mv.2 with
  | mk st1 e =>
      cases e with
      | some e0 => rfl
      | none =>
          cases lci with
          | none => rfl
          | some L =>
              cases runSteps (lciTechStep pname) st1.1 (lciPairs L) with
              | mk t2 r => rfl

theorem goodS_wasteMaterialStep (pname fam : String) (lci : Option LciDict)
    (mv : String × PyDict WKey PyFloat) :
    GoodFunS (fun st => wasteMaterialStep pname fam lci st mv) := by
  have heq : (fun st => wasteMaterialStep pname fam lci st mv) =
      seqFS (fun st' => runSteps (wasteEntryStep pname fam mv.1) st' mv.2)
        (liftF (lciTechPart pname lci)) :=
    funext (wasteMaterialStep_eq pname fam lci mv)
  rw [heq]
  exact good_seqFS
    (goodS_runSteps (fun kv => goodS_wasteEntryStep pname fam mv.1 kv) mv.2)
    (good_liftF (good_lciTechPart pname lci))

theorem bioMaterialStep_eq (pname : String) (lci : Option LciDict)
    (mv : String × PyDict SKey PyFloat) (b : BTable) :
    bioMaterialStep pname lci b mv =
      seqF (fun u => runSteps (bioEntryStep pname mv.1) u mv.2)
        (lciBioPart pname lci) b := by
  simp only [bioMaterialStep, seqF, lciBioPart]
  cases hrs : runSteps (bioEntryStep pname mv.1) b mv.2 with
  | mk b1 e =>
      cases e with
      | some e0 => rfl
      | none =>
          cases lci with
          | none => rfl
          | some L => rfl

theorem good_bioMaterialStep (pname : String) (lci : Option LciDict)
    (mv : String × PyDict SKey PyFloat) :
    GoodFun (fun b => bioMaterialStep pname lci b mv) := by
  have heq : (fun b => bioMaterialStep pname lci b mv) =
      seqF (fun u => runSteps (bioEntryStep pname mv.1) u mv.2) (lciBioPart pname lci) :=
    funext (bioMaterialStep_eq pname lci mv)
  rw [heq]
  exact good_seqF
    (good_runSteps (fun kv => good_bioEntryStep pname mv.1 kv) mv.2)
    (good_lciBioPart pname lci)

theorem good_update_biomatrix (pname : String) (r : Report) :
    GoodFun (fun b => update_biomatrix pname r b) :=
  good_runSteps (fun mv => good_bioMaterialStep pname r.lci mv) r.biosphere

theorem good_wasteSection (pname fam : String) (lci : Option LciDict)
    (waste : PyDict String (PyDict WKey PyFloat)) :
    GoodFun (wasteSection pname fam lci waste) := by
  have hS := goodS_runSteps (fun mv => goodS_wasteMaterialStep pname fam lci mv) waste
  constructor
  · intro t
    unfold wasteSection
    cases hrs : runSteps (wasteMaterialStep pname fam lci) (t, (none : Option String)) waste with
    | mk st e =>
        have h0 : dkeys ((runSteps (wasteMaterialStep pname fam lci)
            (t, (none : Option String)) waste).1.1) = dkeys t := hS.1 t none
        rw [hrs] at h0
        exact h0
  · intro t t' h
    unfold wasteSection at h
    cases hrs : runSteps (wasteMaterialStep pname fam lci) (t, (none : Option String)) waste with
    | mk st e =>
        rw [hrs] at h
        cases e with
        | some e0 => exact absurd (congrArg Prod.snd h) (by simp)
        | none =>
            have ht' : st.1 = t' := congrArg Prod.fst h
            have hr2 : runSteps (wasteMaterialStep pname fam lci) (t, (none : Option String)) waste
                = ((st.1, st.2), none) := by rw [hrs]
            obtain ⟨ws, h1, h2, h3⟩ := hS.2 t (none : Option String) st.1 st.2 hr2
            refine ⟨ws, h1, by rw [← ht']; exact h2, fun s hs => ?_⟩
            have h3h : runSteps (wasteMaterialStep pname fam lci)
                (s, (none : Option String)) waste = ((foldDsets s ws, st.2), none) := h3 s hs
            show (match runSteps (wasteMaterialStep pname fam lci)
                    (s, (none : Option String)) waste with
                  | (st, e) => (st.1, e)) = (foldDsets s ws, none)
            rw [h3h]

theorem update_techmatrix_eq (pname : String) (r : Report) (t : TTable) :
    update_techmatrix pname r t =
      seqF (fun u => runSteps (techMaterialStep pname) u r.technosphere)
        (wasteSection pname r.processFamily r.lci r.waste) t := by
  simp only [update_techmatrix, seqF, wasteSection]
  cases hrs : runSteps (techMaterialStep pname) t r.technosphere with
  | mk t1 e =>
      cases e with
      | some e0 => rfl
      | none =>
          cases runSteps (wasteMaterialStep pname r.processFamily r.lci)
              (t1, (none : Option String)) r.waste with
          | mk st e2 => rfl

theorem good_update_techmatrix (pname : String) (r : Report) :
    GoodFun (fun t => update_techmatrix pname r t) := by
  have heq : (fun t => update_techmatrix pname r t) =
      seqF (fun u => runSteps (techMaterialStep pname) u r.technosphere)
        (wasteSection pname r.processFamily r.lci r.waste) :=
    funext (update_techmatrix_eq pname r)
  rw [heq]
  exact good_seqF
    (good_runSteps (fun mv => good_techMaterialStep pname mv) r.technosphere)
    (good_wasteSection pname r.processFamily r.lci r.waste)

/-! ### Explicit runs: successful prefixes and the first failing entry -/

theorem runSteps_append {σ β : Type} (f : σ → β → σ × Option PyErr) (s : σ)
    (xs ys : List β) :
    runSteps f s (xs ++ ys) =
      match runSteps f s xs with
      | (s', none) => runSteps f s' ys
      | (s', some e) => (s', some e) := by
  induction xs generalizing s with
  | nil => rfl
  | cons x xs ih =>
      show runSteps f s (x :: (xs ++ ys)) = _
      simp only [runSteps]
      cases hfx : f s x with
      | mk s1 e =>
          cases e with
          | none => exact ih s1
          | some e0 => rfl

theorem runSteps_cons_err {σ β : Type} {f : σ → β → σ × Option PyErr} {s s' : σ}
    {x : β} {e : PyErr} (xs : List β) (h : f s x = (s', some e)) :
    runSteps f s (x :: xs) = (s', some e) := by
  simp only [runSteps]
  rw [h]

/-- A run of consecutive `applyGuarded` steps whose every entry is non-NaN
and targets an existing key applies exactly the corresponding writes. -/
theorem runSteps_AG_ok {β : Type} (key : β → κ) (val : β → PyFloat)
    {t : PyDict κ PyFloat} {xs : List β}
    (h : ∀ x ∈ xs, (val x).isnan = false ∧ key x ∈ dkeys t) :
    runSteps (fun u x => applyGuarded (key x) (val x) u) t xs
      = (foldDsets t (xs.map fun x => (key x, val x)), none) := by
  induction xs generalizing t with
  | nil => rfl
  | cons x xs ih =>
      have hx := h x (List.mem_cons_self x xs)
      show runSteps (fun u x => applyGuarded (key x) (val x) u) t (x :: xs) = _
      simp only [runSteps]
      rw [applyGuarded_ok hx.1 hx.2]
      have hkeys : dkeys (dset t (key x) (val x)) = dkeys t :=
        dkeys_dset_of_mem (val x) hx.2
      have ih2 := ih (t := dset t (key x) (val x)) (fun y hy =>
        ⟨(h y (List.mem_cons_of_mem x hy)).1, by
          rw [hkeys]; exact (h y (List.mem_cons_of_mem x hy)).2⟩)
      exact ih2

theorem runSteps_techEntries_ok {pname mat : String} {t : TTable}
    {es : PyDict SKey PyFloat}
    (h : ∀ kv ∈ es, (kv.2).isnan = false ∧ (kv.1, (pname, mat)) ∈ dkeys t) :
    runSteps (techEntryStep pname mat) t es
      = (foldDsets t (techEntryWrites pname mat es), none) :=
  runSteps_AG_ok (fun kv : SKey × PyFloat => ((kv.1, (pname, mat)) : TechKey))
    (fun kv : SKey × PyFloat => kv.2) h

theorem runSteps_techMaterials_ok {pname : String} {t : TTable}
    {ms : PyDict String (PyDict SKey PyFloat)}
    (h : ∀ mv ∈ ms, ∀ kv ∈ mv.2, (kv.2).isnan = false ∧ (kv.1, (pname, mv.1)) ∈ dkeys t) :
    runSteps (techMaterialStep pname) t ms
      = (foldDsets t (techWrites pname ms), none) := by
  induction ms generalizing t with
  | nil => rfl
  | cons mv ms ih =>
      have h1 : ∀ kv ∈ mv.2, (kv.2).isnan = false ∧ (kv.1, (pname, mv.1)) ∈ dkeys t :=
        fun kv hkv => h mv (List.mem_cons_self mv ms) kv hkv
      have hw1 : ∀ w ∈ techEntryWrites pname mv.1 mv.2, w.1 ∈ dkeys t := by
        intro w hw
        simp only [techEntryWrites, List.mem_map] at hw
        obtain ⟨kv, hkv, hwe⟩ := hw
        rw [← hwe]
        exact (h1 kv hkv).2
      have hkeys : dkeys (foldDsets t (techEntryWrites pname mv.1 mv.2)) = dkeys t :=
        dkeys_foldDsets hw1
      show runSteps (techMaterialStep pname) t (mv :: ms) = _
      simp only [runSteps]
      have hstep : techMaterialStep pname t mv
          = (foldDsets t (techEntryWrites pname mv.1 mv.2), none) :=
        runSteps_techEntries_ok h1
      rw [hstep]
      have ih2 := ih (t := foldDsets t (techEntryWrites pname mv.1 mv.2)) (fun nv hnv kv hkv =>
        ⟨(h nv (List.mem_cons_of_mem mv hnv) kv hkv).1, by
          rw [hkeys]; exact (h nv (List.mem_cons_of_mem mv hnv) kv hkv).2⟩)
      show runSteps (techMaterialStep pname) (foldDsets t (techEntryWrites pname mv.1 mv.2)) ms = _
      rw [ih2]
      show (foldDsets (foldDsets t (techEntryWrites pname mv.1 mv.2)) (techWrites pname ms), (none : Option PyErr)) = _
      rw [← foldDsets_append]
      rfl

/-- If the `"Technosphere"` grouping reaches an entry on which the shared
validation block raises, the whole applier call stops there with the error,
and the table keeps exactly the mutations applied so far. -/
theorem update_techmatrix_tech_abort (pname fam : String)
    (wasteD : PyDict String (PyDict WKey PyFloat))
    (bioD : PyDict String (PyDict SKey PyFloat)) (lci : Option LciDict)
    (M1 M2 : PyDict String (PyDict SKey PyFloat)) (mat : String)
    (E1 E2 : PyDict SKey PyFloat) (k : SKey) (v : PyFloat) (t : TTable) (err : PyErr)
    (hok1 : ∀ mv ∈ M1, ∀ kv ∈ mv.2, (kv.2).isnan = false ∧ (kv.1, (pname, mv.1)) ∈ dkeys t)
    (hok2 : ∀ kv ∈ E1, (kv.2).isnan = false ∧ (kv.1, (pname, mat)) ∈ dkeys t)
    (herr : applyGuarded ((k, (pname, mat))) v
        (foldDsets t (techWrites pname M1 ++ techEntryWrites pname mat E1))
      = (foldDsets t (techWrites pname M1 ++ techEntryWrites pname mat E1), some err)) :
    update_techmatrix pname
        { processFamily := fam
          technosphere := M1 ++ (mat, E1 ++ (k, v) :: E2) :: M2
          waste := wasteD
          biosphere := bioD
          lci := lci } t
      = (foldDsets t (techWrites pname M1 ++ techEntryWrites pname mat E1), some err) := by
  have hkeys1 : ∀ w ∈ techWrites pname M1, w.1 ∈ dkeys t := by
    intro w hw
    simp only [techWrites, List.mem_flatMap, techEntryWrites, List.mem_map] at hw
    obtain ⟨mv, hmv, kv, hkv, hwe⟩ := hw
    rw [← hwe]
    exact (hok1 mv hmv kv hkv).2
  have hk1 : dkeys (foldDsets t (techWrites pname M1)) = dkeys t :=
    dkeys_foldDsets hkeys1
  -- run the technosphere materials before the failing one
  have hM1 : runSteps (techMaterialStep pname) t M1
      = (foldDsets t (techWrites pname M1), none) :=
    runSteps_techMaterials_ok hok1
  -- run the good entries of the failing material
  have hE1 : runSteps (techEntryStep pname mat) (foldDsets t (techWrites pname M1)) E1
      = (foldDsets (foldDsets t (techWrites pname M1)) (techEntryWrites pname mat E1), none) :=
    runSteps_techEntries_ok (fun kv hkv =>
      ⟨(hok2 kv hkv).1, by rw [hk1]; exact (hok2 kv hkv).2⟩)
  -- the failing entry
  have hbadstep : techEntryStep pname mat
      (foldDsets t (techWrites pname M1 ++ techEntryWrites pname mat E1)) (k, v)
      = (foldDsets t (techWrites pname M1 ++ techEntryWrites pname mat E1), some err) := herr
  have hEntries : runSteps (techEntryStep pname mat) (foldDsets t (techWrites pname M1))
      (E1 ++ (k, v) :: E2)
      = (foldDsets t (techWrites pname M1 ++ techEntryWrites pname mat E1), some err) := by
    rw [runSteps_append, hE1]
    show runSteps (techEntryStep pname mat)
        (foldDsets (foldDsets t (techWrites pname M1)) (techEntryWrites pname mat E1))
        ((k, v) :: E2) = _
    rw [← foldDsets_append]
    exact runSteps_cons_err E2 hbadstep
  have hMat : techMaterialStep pname (foldDsets t (techWrites pname M1))
      (mat, E1 ++ (k, v) :: E2)
      = (foldDsets t (techWrites pname M1 ++ techEntryWrites pname mat E1), some err) :=
    hEntries
  have hSec : runSteps (techMaterialStep pname) t (M1 ++ (mat, E1 ++ (k, v) :: E2) :: M2)
      = (foldDsets t (techWrites pname M1 ++ techEntryWrites pname mat E1), some err) := by
    rw [runSteps_append, hM1]
    exact runSteps_cons_err M2 hMat
  show update_techmatrix pname _ t = _
  simp only [update_techmatrix]
  rw [hSec]

theorem runSteps_bioEntries_ok {pname mat : String} {b : BTable}
    {es : PyDict SKey PyFloat}
    (h : ∀ kv ∈ es, (kv.2).isnan = false ∧ ((Sum.inl kv.1, (pname, mat)) : BioKey) ∈ dkeys b) :
    runSteps (bioEntryStep pname mat) b es
      = (foldDsets b (bioEntryWrites pname mat es), none) :=
  runSteps_AG_ok (fun kv : SKey × PyFloat => ((Sum.inl kv.1, (pname, mat)) : BioKey))
    (fun kv : SKey × PyFloat => kv.2) h

/-- With no `"LCI"` grouping, one `"Biosphere"` material iteration is exactly
the run over its entries. -/
theorem bioMaterialStep_lci_none (pname : String) (b : BTable)
    (mv : String × PyDict SKey PyFloat) :
    bioMaterialStep pname none b mv = runSteps (bioEntryStep pname mv.1) b mv.2 := by
  simp only [bioMaterialStep]
  cases runSteps (bioEntryStep pname mv.1) b mv.2 with
  | mk b1 e => cases e <;> rfl

theorem runSteps_bioMaterials_ok {pname : String} {b : BTable}
    {ms : PyDict String (PyDict SKey PyFloat)}
    (h : ∀ mv ∈ ms, ∀ kv ∈ mv.2, (kv.2).isnan = false ∧
      ((Sum.inl kv.1, (pname, mv.1)) : BioKey) ∈ dkeys b) :
    runSteps (bioMaterialStep pname none) b ms
      = (foldDsets b (bioWrites pname ms), none) := by
  induction ms generalizing b with
  | nil => rfl
  | cons mv ms ih =>
      have h1 := fun kv hkv => h mv (List.mem_cons_self mv ms) kv hkv
      have hw1 : ∀ w ∈ bioEntryWrites pname mv.1 mv.2, w.1 ∈ dkeys b := by
        intro w hw
        simp only [bioEntryWrites, List.mem_map] at hw
        obtain ⟨kv, hkv, hwe⟩ := hw
        rw [← hwe]
        exact (h1 kv hkv).2
      have hkeys : dkeys (foldDsets b (bioEntryWrites pname mv.1 mv.2)) = dkeys b :=
        dkeys_foldDsets hw1
      show runSteps (bioMaterialStep pname none) b (mv :: ms) = _
      simp only [runSteps]
      have hstep : bioMaterialStep pname none b mv
          = (foldDsets b (bioEntryWrites pname mv.1 mv.2), none) := by
        rw [bioMaterialStep_lci_none]
        exact runSteps_bioEntries_ok h1
      rw [hstep]
      have ih2 := ih (b := foldDsets b (bioEntryWrites pname mv.1 mv.2)) (fun nv hnv kv hkv =>
        ⟨(h nv (List.mem_cons_of_mem mv hnv) kv hkv).1, by
          rw [hkeys]; exact (h nv (List.mem_cons_of_mem mv hnv) kv hkv).2⟩)
      show runSteps (bioMaterialStep pname none) (foldDsets b (bioEntryWrites pname mv.1 mv.2)) ms = _
      rw [ih2]
      show (foldDsets (foldDsets b (bioEntryWrites pname mv.1 mv.2)) (bioWrites pname ms), (none : Option PyErr)) = _
      rw [← foldDsets_append]
      rfl

/-- If the `"Biosphere"` grouping (with no `"LCI"` key in the report) reaches
an entry on which its validation raises, the applier stops there with the
error and keeps the mutations applied so far. -/
theorem update_biomatrix_bio_abort (pname fam : String)
    (techD : PyDict String (PyDict SKey PyFloat))
    (wasteD : PyDict String (PyDict WKey PyFloat))
    (M1 M2 : PyDict String (PyDict SKey PyFloat)) (mat : String)
    (E1 E2 : PyDict SKey PyFloat) (k : SKey) (v : PyFloat) (b : BTable) (err : PyErr)
    (hok1 : ∀ mv ∈ M1, ∀ kv ∈ mv.2, (kv.2).isnan = false ∧
      ((Sum.inl kv.1, (pname, mv.1)) : BioKey) ∈ dkeys b)
    (hok2 : ∀ kv ∈ E1, (kv.2).isnan = false ∧
      ((Sum.inl kv.1, (pname, mat)) : BioKey) ∈ dkeys b)
    (herr : applyGuarded ((Sum.inl k, (pname, mat)) : BioKey) v
        (foldDsets b (bioWrites pname M1 ++ bioEntryWrites pname mat E1))
      = (foldDsets b (bioWrites pname M1 ++ bioEntryWrites pname mat E1), some err)) :
    update_biomatrix pname
        { processFamily := fam
          technosphere := techD
          waste := wasteD
          biosphere := M1 ++ (mat, E1 ++ (k, v) :: E2) :: M2
          lci := none } b
      = (foldDsets b (bioWrites pname M1 ++ bioEntryWrites pname mat E1), some err) := by
  have hkeys1 : ∀ w ∈ bioWrites pname M1, w.1 ∈ dkeys b := by
    intro w hw
    simp only [bioWrites, List.mem_flatMap, bioEntryWrites, List.mem_map] at hw
    obtain ⟨mv, hmv, kv, hkv, hwe⟩ := hw
    rw [← hwe]
    exact (hok1 mv hmv kv hkv).2
  have hk1 : dkeys (foldDsets b (bioWrites pname M1)) = dkeys b :=
    dkeys_foldDsets hkeys1
  have hM1 : runSteps (bioMaterialStep pname none) b M1
      = (foldDsets b (bioWrites pname M1), none) :=
    runSteps_bioMaterials_ok hok1
  have hE1 : runSteps (bioEntryStep pname mat) (foldDsets b (bioWrites pname M1)) E1
      = (foldDsets (foldDsets b (bioWrites pname M1)) (bioEntryWrites pname mat E1), none) :=
    runSteps_bioEntries_ok (fun kv hkv =>
      ⟨(hok2 kv hkv).1, by rw [hk1]; exact (hok2 kv hkv).2⟩)
  have hbadstep : bioEntryStep pname mat
      (foldDsets b (bioWrites pname M1 ++ bioEntryWrites pname mat E1)) (k, v)
      = (foldDsets b (bioWrites pname M1 ++ bioEntryWrites pname mat E1), some err) := herr
  have hEntries : runSteps (bioEntryStep pname mat) (foldDsets b (bioWrites pname M1))
      (E1 ++ (k, v) :: E2)
      = (foldDsets b (bioWrites pname M1 ++ bioEntryWrites pname mat E1), some err) := by
    rw [runSteps_append, hE1]
    show runSteps (bioEntryStep pname mat)
        (foldDsets (foldDsets b (bioWrites pname M1)) (bioEntryWrites pname mat E1))
        ((k, v) :: E2) = _
    rw [← foldDsets_append]
    exact runSteps_cons_err E2 hbadstep
  have hMat : bioMaterialStep pname none (foldDsets b (bioWrites pname M1))
      (mat, E1 ++ (k, v) :: E2)
      = (foldDsets b (bioWrites pname M1 ++ bioEntryWrites pname mat E1), some err) := by
    rw [bioMaterialStep_lci_none]
    exact hEntries
  show update_biomatrix pname _ b = _
  simp only [update_biomatrix]
  rw [runSteps_append, hM1]
  exact runSteps_cons_err M2 hMat

theorem lciTechStep_eq_applyGuarded (pname : String) {p : String × String × SKey × PyFloat}
    (hb : bioInKey p.2.2.1 = false) (t : TTable) :
    lciTechStep pname t p = applyGuarded (lciTechKey pname p) p.2.2.2 t := by
  obtain ⟨y, m, n, v⟩ := p
  simp only [lciTechStep, lciTechKey]
  simp only [bioInKey] at hb ⊢
  simp [hb]

theorem lciTechStep_skip (pname : String) {p : String × String × SKey × PyFloat}
    (hb : bioInKey p.2.2.1 = true) (t : TTable) :
    lciTechStep pname t p = (t, none) := by
  obtain ⟨y, m, n, v⟩ := p
  simp only [lciTechStep]
  simp only [bioInKey] at hb ⊢
  simp [hb]

theorem runSteps_lciTech_ok {pname : String} {t : TTable}
    {ps : List (String × String × SKey × PyFloat)}
    (h : ∀ p ∈ ps, bioInKey p.2.2.1 = true ∨
      ((p.2.2.2).isnan = false ∧ lciTechKey pname p ∈ dkeys t)) :
    runSteps (lciTechStep pname) t ps = (foldDsets t (lciTechWrites pname ps), none) := by
  induction ps generalizing t with
  | nil => rfl
  | cons p ps ih =>
      have hp := h p (List.mem_cons_self p ps)
      show runSteps (lciTechStep pname) t (p :: ps) = _
      simp only [runSteps]
      by_cases hb : bioInKey p.2.2.1
      · rw [lciTechStep_skip pname hb t]
        have ih2 := ih (t := t) (fun q hq => h q (List.mem_cons_of_mem p hq))
        show runSteps (lciTechStep pname) t ps = _
        rw [ih2]
        simp only [lciTechWrites, List.filter_cons, hb]
        rfl
      · rcases hp with hp | hp
        · exact absurd hp (by simpa using hb)
        · rw [lciTechStep_eq_applyGuarded pname (by simpa using hb) t,
            applyGuarded_ok hp.1 hp.2]
          have hkeys : dkeys (dset t (lciTechKey pname p) p.2.2.2) = dkeys t :=
            dkeys_dset_of_mem _ hp.2
          have ih2 := ih (t := dset t (lciTechKey pname p) p.2.2.2) (fun q hq => by
            rcases h q (List.mem_cons_of_mem p hq) with hq2 | hq2
            · exact Or.inl hq2
            · exact Or.inr ⟨hq2.1, by rw [hkeys]; exact hq2.2⟩)
          show runSteps (lciTechStep pname) (dset t (lciTechKey pname p) p.2.2.2) ps = _
          rw [ih2]
          simp only [lciTechWrites, List.filter_cons, hb]
          show (foldDsets (dset t (lciTechKey pname p) p.2.2.2) _, (none : Option PyErr)) = _
          rw [show dset t (lciTechKey pname p) p.2.2.2
              = foldDsets t [(lciTechKey pname p, p.2.2.2)] from rfl, ← foldDsets_append]
          rfl

/-- Running `update_techmatrix` with an empty `"Waste"` grouping never reaches the
`"LCI"` block and, with an empty `"Technosphere"` grouping, is a no-op. -/
theorem update_techmatrix_waste_empty (pname fam : String)
    (bioD : PyDict String (PyDict SKey PyFloat)) (lci : Option LciDict) (t : TTable) :
    update_techmatrix pname
        { processFamily := fam, technosphere := [], waste := [],
          biosphere := bioD, lci := lci } t = (t, none) := rfl

/-- Running `update_biomatrix` with an empty `"Biosphere"` grouping never reaches the
`"LCI"` block and is a no-op. -/
theorem update_biomatrix_bio_empty (pname fam : String)
    (techD : PyDict String (PyDict SKey PyFloat))
    (wasteD : PyDict String (PyDict WKey PyFloat)) (lci : Option LciDict) (b : BTable) :
    update_biomatrix pname
        { processFamily := fam, technosphere := techD, waste := wasteD,
          biosphere := [], lci := lci } b = (b, none) := rfl

/-- With a single `"Waste"` material that has no entries, `update_techmatrix`
is exactly one pass over the `"LCI"` block. -/
theorem update_techmatrix_lci_focus (pname fam mat : String) (L : LciDict)
    (bioD : PyDict String (PyDict SKey PyFloat)) (t : TTable) :
    update_techmatrix pname
        { processFamily := fam, technosphere := [], waste := [(mat, [])],
          biosphere := bioD, lci := some L } t
      = runSteps (lciTechStep pname) t (lciPairs L) := by
  cases hR : runSteps (lciTechStep pname) t (lciPairs L) with
  | mk t2 r =>
      have hms : wasteMaterialStep pname fam (some L) (t, (none : Option String)) (mat, [])
          = ((t2, (none : Option String)), r) := by
        show (match runSteps (lciTechStep pname) t (lciPairs L) with
              | (t2, r) => (((t2, (none : Option String)), r) :
                  (TTable × Option String) × Option PyErr)) = _
        rw [hR]
      cases r with
      | none =>
          show (match runSteps (wasteMaterialStep pname fam (some L))
                  (t, (none : Option String)) [(mat, [])] with
                | (st, e) => (st.1, e)) = (t2, none)
          simp only [runSteps]
          rw [hms]
      | some e0 =>
          show (match runSteps (wasteMaterialStep pname fam (some L))
                  (t, (none : Option String)) [(mat, [])] with
                | (st, e) => (st.1, e)) = (t2, some e0)
          simp only [runSteps]
          rw [hms]

theorem lciBioStep_eq_applyGuarded (pname : String) {p : String × String × SKey × PyFloat}
    (hb : bioInKey p.2.2.1 = true) (b : BTable) :
    lciBioStep pname b p = applyGuarded (lciBioKey pname p) p.2.2.2 b := by
  obtain ⟨y, m, n, v⟩ := p
  simp only [lciBioStep, lciBioKey]
  simp only [bioInKey] at hb ⊢
  simp [hb]

theorem lciBioStep_skip (pname : String) {p : String × String × SKey × PyFloat}
    (hb : bioInKey p.2.2.1 = false) (b : BTable) :
    lciBioStep pname b p = (b, none) := by
  obtain ⟨y, m, n, v⟩ := p
  simp only [lciBioStep]
  simp only [bioInKey] at hb ⊢
  simp [hb]

/-- With a single `"Biosphere"` material that has no entries, `update_biomatrix`
is exactly one pass over the `"LCI"` block. -/
theorem update_biomatrix_lci_focus (pname fam mat : String) (L : LciDict)
    (techD : PyDict String (PyDict SKey PyFloat))
    (wasteD : PyDict String (PyDict WKey PyFloat)) (b : BTable) :
    update_biomatrix pname
        { processFamily := fam, technosphere := techD, waste := wasteD,
          biosphere := [(mat, [])], lci := some L } b
      = runSteps (lciBioStep pname) b (lciPairs L) := by
  cases hR : runSteps (lciBioStep pname) b (lciPairs L) with
  | mk b2 r =>
      have hms : bioMaterialStep pname (some L) b (mat, [])
          = (b2, r) := by
        show runSteps (lciBioStep pname) b (lciPairs L) = _
        rw [hR]
      cases r with
      | none =>
          show runSteps (bioMaterialStep pname (some L)) b [(mat, [])] = (b2, none)
          simp only [runSteps]
          rw [hms]
      | some e0 =>
          show runSteps (bioMaterialStep pname (some L)) b [(mat, [])] = (b2, some e0)
          simp only [runSteps]
          rw [hms]

/-- If one pass over the technosphere `"LCI"` block reaches a non-biosphere
leaf on which the validation raises, it stops there with the error, keeping
the writes of the earlier non-biosphere leaves. -/
theorem runSteps_lciTech_abort {pname : String} {t : TTable}
    (P1 P2 : List (String × String × SKey × PyFloat))
    (p : String × String × SKey × PyFloat) (err : PyErr)
    (hok : ∀ q ∈ P1, bioInKey q.2.2.1 = true ∨
      ((q.2.2.2).isnan = false ∧ lciTechKey pname q ∈ dkeys t))
    (hb : bioInKey p.2.2.1 = false)
    (herr : applyGuarded (lciTechKey pname p) p.2.2.2
        (foldDsets t (lciTechWrites pname P1))
      = (foldDsets t (lciTechWrites pname P1), some err)) :
    runSteps (lciTechStep pname) t (P1 ++ p :: P2)
      = (foldDsets t (lciTechWrites pname P1), some err) := by
  rw [runSteps_append, runSteps_lciTech_ok hok]
  show runSteps (lciTechStep pname) (foldDsets t (lciTechWrites pname P1)) (p :: P2) = _
  refine runSteps_cons_err P2 ?_
  rw [lciTechStep_eq_applyGuarded pname hb]
  exact herr

/-- The Transfer-Station stripping is the identity assignment for any other
process family. -/
theorem stripTS_not_ts {fam : String} (mat : String) (prev : Option String)
    (hfam : fam ≠ "Transfer_Station") : stripTS fam mat prev = some mat := by
  simp [stripTS, hfam]

theorem runSteps_wasteEntries_ok_noTS {pname fam mat : String} {t : TTable}
    {a : Option String} {es : PyDict String PyFloat}
    (hfam : fam ≠ "Transfer_Station")
    (h : ∀ kv ∈ es, (kv.2).isnan = false ∧
      (((pname ++ "_product", mat ++ "_" ++ kv.1), (pname, mat)) : TechKey) ∈ dkeys t) :
    ∃ a', runSteps (wasteEntryStep pname fam mat) (t, a) (wasteInl es)
      = ((foldDsets t (wasteWritesNoTS pname mat es), a'), none) := by
  induction es generalizing t a with
  | nil => exact ⟨a, rfl⟩
  | cons kv es ih =>
      have hkv := h kv (List.mem_cons_self kv es)
      have hstep : wasteEntryStep pname fam mat (t, a) (Sum.inl kv.1, kv.2)
          = ((dset t ((pname ++ "_product", mat ++ "_" ++ kv.1), (pname, mat)) kv.2,
              some mat), none) := by
        simp only [wasteEntryStep]
        rw [stripTS_not_ts mat a hfam]
        show (((applyGuarded ((pname ++ "_product", mat ++ "_" ++ kv.1), (pname, mat)) kv.2 t).1,
              some mat),
              (applyGuarded ((pname ++ "_product", mat ++ "_" ++ kv.1), (pname, mat)) kv.2 t).2) = _
        rw [applyGuarded_ok hkv.1 hkv.2]
      have hkeys : dkeys (dset t ((pname ++ "_product", mat ++ "_" ++ kv.1), (pname, mat)) kv.2)
          = dkeys t := dkeys_dset_of_mem kv.2 hkv.2
      obtain ⟨a', ha'⟩ := ih
        (t := dset t ((pname ++ "_product", mat ++ "_" ++ kv.1), (pname, mat)) kv.2)
        (a := some mat)
        (fun nv hnv => ⟨(h nv (List.mem_cons_of_mem kv hnv)).1, by
          rw [hkeys]; exact (h nv (List.mem_cons_of_mem kv hnv)).2⟩)
      refine ⟨a', ?_⟩
      show runSteps (wasteEntryStep pname fam mat) (t, a) ((Sum.inl kv.1, kv.2) :: wasteInl es) = _
      simp only [runSteps]
      rw [hstep]
      show runSteps (wasteEntryStep pname fam mat)
          (dset t ((pname ++ "_product", mat ++ "_" ++ kv.1), (pname, mat)) kv.2, some mat)
          (wasteInl es) = _
      rw [ha']
      rfl

/-- If the (single-material, non-Transfer-Station) `"Waste"` grouping reaches
an entry on which the validation raises, the applier stops there with the
error, keeping the writes of the earlier waste entries. -/
theorem update_techmatrix_waste_abort (pname fam : String)
    (bioD : PyDict String (PyDict SKey PyFloat))
    (mat : String) (E1 : PyDict String PyFloat) (sk : String) (v : PyFloat)
    (E2 : PyDict WKey PyFloat) (t : TTable) (err : PyErr)
    (hfam : fam ≠ "Transfer_Station")
    (hok : ∀ kv ∈ E1, (kv.2).isnan = false ∧
      (((pname ++ "_product", mat ++ "_" ++ kv.1), (pname, mat)) : TechKey) ∈ dkeys t)
    (herr : applyGuarded (((pname ++ "_product", mat ++ "_" ++ sk), (pname, mat)) : TechKey) v
        (foldDsets t (wasteWritesNoTS pname mat E1))
      = (foldDsets t (wasteWritesNoTS pname mat E1), some err)) :
    update_techmatrix pname
        { processFamily := fam, technosphere := [],
          waste := [(mat, wasteInl E1 ++ (Sum.inl sk, v) :: E2)],
          biosphere := bioD, lci := none } t
      = (foldDsets t (wasteWritesNoTS pname mat E1), some err) := by
  obtain ⟨a', ha'⟩ := runSteps_wasteEntries_ok_noTS (a := (none : Option String)) hfam hok
  have hbad : wasteEntryStep pname fam mat
      (foldDsets t (wasteWritesNoTS pname mat E1), a') (Sum.inl sk, v)
      = ((foldDsets t (wasteWritesNoTS pname mat E1), some mat), some err) := by
    simp only [wasteEntryStep]
    rw [stripTS_not_ts mat a' hfam]
    show (((applyGuarded ((pname ++ "_product", mat ++ "_" ++ sk), (pname, mat)) v
            (foldDsets t (wasteWritesNoTS pname mat E1))).1, some mat),
          (applyGuarded ((pname ++ "_product", mat ++ "_" ++ sk), (pname, mat)) v
            (foldDsets t (wasteWritesNoTS pname mat E1))).2) = _
    rw [herr]
  have hEntries : runSteps (wasteEntryStep pname fam mat) (t, (none : Option String))
      (wasteInl E1 ++ (Sum.inl sk, v) :: E2)
      = ((foldDsets t (wasteWritesNoTS pname mat E1), some mat), some err) := by
    rw [runSteps_append, ha']
    show runSteps (wasteEntryStep pname fam mat)
        (foldDsets t (wasteWritesNoTS pname mat E1), a') ((Sum.inl sk, v) :: E2) = _
    exact runSteps_cons_err E2 hbad
  have hMat : wasteMaterialStep pname fam none (t, (none : Option String))
      (mat, wasteInl E1 ++ (Sum.inl sk, v) :: E2)
      = ((foldDsets t (wasteWritesNoTS pname mat E1), some mat), some err) := by
    simp only [wasteMaterialStep]
    rw [hEntries]
  show (match runSteps (wasteMaterialStep pname fam none) (t, (none : Option String))
          [(mat, wasteInl E1 ++ (Sum.inl sk, v) :: E2)] with
        | (st, e) => (st.1, e))
      = (foldDsets t (wasteWritesNoTS pname mat E1), some err)
  simp only [runSteps]
  rw [hMat]

/-! ### Table construction with duplicate-free storage keys -/

theorem foldl_dset_fresh (l : List (κ × α)) : ∀ d : PyDict κ α,
    (l.map Prod.fst).Nodup → (∀ w ∈ l, w.1 ∉ dkeys d) →
    l.foldl (fun d w => dset d w.1 w.2) d = d ++ l := by
  induction l with
  | nil => intro d _ _; simp
  | cons w l ih =>
      intro d hnd hfresh
      simp only [List.map_cons, List.nodup_cons] at hnd
      have hw : dset d w.1 w.2 = d ++ [w] := by
        rw [dset_append_of_not_mem w.2 (hfresh w (List.mem_cons_self w l))]
      show List.foldl (fun d w => dset d w.1 w.2) (dset d w.1 w.2) l = d ++ w :: l
      rw [hw, ih (d ++ [w]) hnd.2 ?_]
      · simp
      · intro u hu
        have h1 : u.1 ∉ dkeys d := hfresh u (List.mem_cons_of_mem w hu)
        have h2 : u.1 ≠ w.1 := by
          intro he
          exact hnd.1 (he ▸ List.mem_map_of_mem Prod.fst hu)
        simp only [dkeys, List.map_append, List.mem_append, not_or]
        refine ⟨by simpa [dkeys] using h1, by simp [h2]⟩

/-- With duplicate-free composite keys, the technosphere table is one entry
per COO entry, in COO order. -/
theorem build_tech_matrix_nodup {prodRev actRev : Nat → SKey} {entries : List CooEntry}
    (h : (entries.map (techKeyOf prodRev actRev)).Nodup) :
    build_tech_matrix prodRev actRev entries
      = entries.map fun e => (techKeyOf prodRev actRev e, e.val) := by
  have hfold : build_tech_matrix prodRev actRev entries
      = (entries.map fun e => (techKeyOf prodRev actRev e, e.val)).foldl
          (fun d w => dset d w.1 w.2) [] := by
    simp only [build_tech_matrix, List.foldl_map]
  rw [hfold, foldl_dset_fresh _ [] ?_ ?_]
  · simp
  · simp only [List.map_map]
    have : ((fun w : TechKey × PyFloat => w.1) ∘ fun e => (techKeyOf prodRev actRev e, e.val))
        = techKeyOf prodRev actRev := rfl
    rw [this]
    exact h
  · intro w _
    simp [dkeys]

theorem bio_final_keys_go_length (bioRev actRev : Nat → SKey) :
    ∀ (entries : List CooEntry) (seen : List BioKey),
    (bio_final_keys_go bioRev actRev seen entries).length = entries.length := by
  intro entries
  induction entries with
  | nil => intro seen; rfl
  | cons e rest ih =>
      intro seen
      simp only [bio_final_keys_go]
      by_cases hc : seen.contains (bioKeyOf bioRev actRev e)
      · simp [hc, ih]
      · simp [hc, ih]

theorem build_bio_matrix_go_eq_zip (bioRev actRev : Nat → SKey) :
    ∀ (entries : List CooEntry) (d : PyDict BioKey PyFloat) (seen : List BioKey),
    (bio_final_keys_go bioRev actRev seen entries).Nodup →
    (∀ k ∈ bio_final_keys_go bioRev actRev seen entries, k ∉ dkeys d) →
    build_bio_matrix_go bioRev actRev d seen entries
      = d ++ (bio_final_keys_go bioRev actRev seen entries).zip (entries.map CooEntry.val) := by
  intro entries
  induction entries with
  | nil => intro d seen _ _; simp [build_bio_matrix_go, bio_final_keys_go]
  | cons e rest ih =>
      intro d seen hnd hfresh
      by_cases hc : seen.contains (bioKeyOf bioRev actRev e)
      · have hfk : bio_final_keys_go bioRev actRev seen (e :: rest)
            = disambKeyOf bioRev actRev e :: bio_final_keys_go bioRev actRev seen rest := by
          simp [bio_final_keys_go, hc]
        rw [hfk] at hnd hfresh
        simp only [List.nodup_cons] at hnd
        have hdk : disambKeyOf bioRev actRev e ∉ dkeys d :=
          hfresh _ (List.mem_cons_self _ _)
        have hbuild : build_bio_matrix_go bioRev actRev d seen (e :: rest)
            = build_bio_matrix_go bioRev actRev
                (dset d (disambKeyOf bioRev actRev e) e.val) seen rest := by
          simp [build_bio_matrix_go, hc]
        rw [hbuild, dset_append_of_not_mem e.val hdk,
          ih (d ++ [(disambKeyOf bioRev actRev e, e.val)]) seen hnd.2 ?_, hfk]
        · simp
        · intro k hk
          have h1 : k ∉ dkeys d := hfresh k (List.mem_cons_of_mem _ hk)
          have h2 : k ≠ disambKeyOf bioRev actRev e := fun he => hnd.1 (he ▸ hk)
          simp only [dkeys, List.map_append, List.mem_append, not_or]
          exact ⟨by simpa [dkeys] using h1, by simp [h2]⟩
      · have hfk : bio_final_keys_go bioRev actRev seen (e :: rest)
            = bioKeyOf bioRev actRev e
              :: bio_final_keys_go bioRev actRev (bioKeyOf bioRev actRev e :: seen) rest := by
          simp [bio_final_keys_go, hc]
        rw [hfk] at hnd hfresh
        simp only [List.nodup_cons] at hnd
        have hdk : bioKeyOf bioRev actRev e ∉ dkeys d :=
          hfresh _ (List.mem_cons_self _ _)
        have hbuild : build_bio_matrix_go bioRev actRev d seen (e :: rest)
            = build_bio_matrix_go bioRev actRev
                (dset d (bioKeyOf bioRev actRev e) e.val)
                (bioKeyOf bioRev actRev e :: seen) rest := by
          simp [build_bio_matrix_go, hc]
        rw [hbuild, dset_append_of_not_mem e.val hdk,
          ih (d ++ [(bioKeyOf bioRev actRev e, e.val)]) _ hnd.2 ?_, hfk]
        · simp
        · intro k hk
          have h1 : k ∉ dkeys d := hfresh k (List.mem_cons_of_mem _ hk)
          have h2 : k ≠ bioKeyOf bioRev actRev e := fun he => hnd.1 (he ▸ hk)
          simp only [dkeys, List.map_append, List.mem_append, not_or]
          exact ⟨by simpa [dkeys] using h1, by simp [h2]⟩

/-- With duplicate-free storage keys, the biosphere table pairs each storage
key with the matching COO entry value, in COO order. -/
theorem build_bio_matrix_eq_zip {bioRev actRev : Nat → SKey} {entries : List CooEntry}
    (h : (bio_final_keys bioRev actRev entries).Nodup) :
    build_bio_matrix bioRev actRev entries
      = (bio_final_keys bioRev actRev entries).zip (entries.map CooEntry.val) := by
  have := build_bio_matrix_go_eq_zip bioRev actRev entries [] [] h (by simp [dkeys])
  simpa [build_bio_matrix, bio_final_keys] using this

/-- The parallel row, column and value arrays of a COO entry list zip back to
the entry list itself. -/
theorem zipEntries_map (entries : List CooEntry) :
    zipEntries (entries.map CooEntry.row) (entries.map CooEntry.col)
      (entries.map CooEntry.val) = entries := by
  induction entries with
  | nil => rfl
  | cons e rest ih =>
      show (⟨e.row, e.col, e.val⟩ : CooEntry) ::
          zipEntries (rest.map CooEntry.row) (rest.map CooEntry.col)
            (rest.map CooEntry.val) = e :: rest
      rw [ih]

theorem runSteps_nil {σ β : Type} (f : σ → β → σ × Option PyErr) (s : σ) :
    runSteps f s ([] : List β) = (s, none) := rfl

theorem runSteps_cons_ok {σ β : Type} {f : σ → β → σ × Option PyErr} {s s' : σ} {x : β}
    (xs : List β) (h : f s x = (s', none)) :
    runSteps f s (x :: xs) = runSteps f s' xs := by
  simp only [runSteps]
  rw [h]

/-- With an empty `"Technosphere"` grouping the applier is just its
`"Waste"` section. -/
theorem update_techmatrix_tech_empty (pname fam : String)
    (wasteD : PyDict String (PyDict WKey PyFloat))
    (bioD : PyDict String (PyDict SKey PyFloat)) (lci : Option LciDict) (t : TTable) :
    update_techmatrix pname
        { processFamily := fam, technosphere := [], waste := wasteD,
          biosphere := bioD, lci := lci } t
      = wasteSection pname fam lci wasteD t := by
  rw [update_techmatrix_eq]
  rfl

theorem wasteSection_eq_from (pname fam : String) (lci : Option LciDict)
    (ms : PyDict String (PyDict WKey PyFloat)) (t : TTable) :
    wasteSection pname fam lci ms t
      = wasteSectionFrom pname fam lci (t, (none : Option String)) ms := rfl

theorem wasteSectionFrom_nil (pname fam : String) (lci : Option LciDict)
    (st : TTable × Option String) :
    wasteSectionFrom pname fam lci st [] = (st.1, none) := rfl

theorem wasteSectionFrom_cons_ok {pname fam : String} {lci : Option LciDict}
    {st st2 : TTable × Option String} {mv : String × PyDict WKey PyFloat}
    (ms : PyDict String (PyDict WKey PyFloat))
    (h : wasteMaterialStep pname fam lci st mv = (st2, none)) :
    wasteSectionFrom pname fam lci st (mv :: ms)
      = wasteSectionFrom pname fam lci st2 ms := by
  unfold wasteSectionFrom
  rw [runSteps_cons_ok ms h]

theorem wasteSectionFrom_cons_err {pname fam : String} {lci : Option LciDict}
    {st st2 : TTable × Option String} {mv : String × PyDict WKey PyFloat} {e : PyErr}
    (ms : PyDict String (PyDict WKey PyFloat))
    (h : wasteMaterialStep pname fam lci st mv = (st2, some e)) :
    wasteSectionFrom pname fam lci st (mv :: ms) = (st2.1, some e) := by
  unfold wasteSectionFrom
  rw [runSteps_cons_err ms h]

/-! ### The claims -/

/-! ### The claims -/

/-- Claim C8: calling `rebuild_technosphere_matrix` or `rebuild_biosphere_matrix`
with a value sequence whose length does not equal the number of captured
coordinate entries fails with the `InvalidArgument` error kind
(`lengthMismatch`, scipy's `ValueError`) through the sparse constructor's
length precondition, before any matrix is constructed. -/
theorem c8_rebuild_length_precondition (rows cols : List Nat) (shape : Nat × Nat)
    (values : List PyFloat) (hrc : rows.length = cols.length)
    (hv : values.length ≠ rows.length) :
    rebuild_technosphere_matrix rows cols shape values = Except.error PyErr.lengthMismatch ∧
    rebuild_biosphere_matrix rows cols shape values = Except.error PyErr.lengthMismatch := by
  have h : csrFromCoo rows cols values shape = Except.error PyErr.lengthMismatch := by
    unfold csrFromCoo
    rw [if_neg]
    intro hc
    exact hv hc.2
  exact ⟨h, h⟩

/-- Witness for C8 at a concrete length mismatch. -/
theorem c8_rebuild_length_precondition_witness :
    ([0, 1].length = [2, 3].length) ∧ (([] : List PyFloat).length ≠ [0, 1].length) ∧
    (rebuild_technosphere_matrix [0, 1] [2, 3] (2, 4) [] = Except.error PyErr.lengthMismatch ∧
     rebuild_biosphere_matrix [0, 1] [2, 3] (2, 4) [] = Except.error PyErr.lengthMismatch) :=
  ⟨rfl, by decide, c8_rebuild_length_precondition [0, 1] [2, 3] (2, 4) [] rfl (by decide)⟩

/-- Claim C5: over any sequence of `update_techmatrix` and `update_biomatrix` calls,
the key sequences of both tables stay exactly what they were after
construction — the appliers never add or remove a key, whether each call
completes or aborts with an error (aborted calls keep their table). -/
theorem c5_key_set_immutability (cs : List UpdateCall) (t : TTable) (b : BTable) :
    dkeys (execCalls (t, b) cs).1 = dkeys t ∧ dkeys (execCalls (t, b) cs).2 = dkeys b := by
  induction cs generalizing t b with
  | nil => exact ⟨rfl, rfl⟩
  | cons c cs ih =>
      cases c with
      | tech pname r =>
          have hk : dkeys ((update_techmatrix pname r t).1) = dkeys t :=
            (good_update_techmatrix pname r).1 t
          have := ih ((update_techmatrix pname r t).1) b
          exact ⟨this.1.trans hk, this.2⟩
      | bio pname r =>
          have hk : dkeys ((update_biomatrix pname r b).1) = dkeys b :=
            (good_update_biomatrix pname r).1 b
          have := ih t ((update_biomatrix pname r b).1)
          exact ⟨this.1, this.2.trans hk⟩

/-- Claim C4 counterexample: three biosphere COO entries that map to one composite
key.  The code stores the first under the original key, the second under the
single disambiguated key, and the third entry overwrites the second under
that same disambiguated key: the table ends with 2 entries for 3 coordinate
entries and the middle value `2` is lost — falsifying both the pairwise
retention and the entry-count equality of the claim. -/
theorem c4_collision_counterexample :
    build_bio_matrix (fun _ => ("biosphere3", "f")) (fun _ => ("Tech", "a"))
        [⟨0, 0, PyFloat.num 1⟩, ⟨1, 0, PyFloat.num 2⟩, ⟨2, 0, PyFloat.num 3⟩]
      = [((Sum.inl ("biosphere3", "f"), ("Tech", "a")), PyFloat.num 1),
         ((Sum.inr "(\x27biosphere3\x27, \x27f\x27) - 1", ("Tech", "a")), PyFloat.num 3)] := by
  decide

/-- Claim C4 (amended): provided the storage-key sequence is duplicate-free —
equivalently, no composite key occurs more than twice among the coordinate
entries and the suffix-disambiguated keys are fresh — every coordinate
entry's value is retained, the first of a colliding pair under the original
key and the second under the disambiguated key, and the table has exactly
one entry per non-zero coordinate entry. -/
theorem c4_collision_disambiguation (bioRev actRev : Nat → SKey)
    (entries : List CooEntry) (h : (bio_final_keys bioRev actRev entries).Nodup) :
    build_bio_matrix bioRev actRev entries
      = (bio_final_keys bioRev actRev entries).zip (entries.map CooEntry.val) ∧
    (build_bio_matrix bioRev actRev entries).length = entries.length := by
  refine ⟨build_bio_matrix_eq_zip h, ?_⟩
  rw [build_bio_matrix_eq_zip h, List.length_zip]
  rw [bio_final_keys, bio_final_keys_go_length, List.length_map]
  exact Nat.min_self _

/-- Witness for C4 (amended) at a two-entry collision pair. -/
theorem c4_collision_disambiguation_witness :
    (bio_final_keys (fun _ => ("biosphere3", "g")) (fun _ => ("Tech", "a"))
        [⟨0, 0, PyFloat.num 4⟩, ⟨1, 0, PyFloat.num 5⟩]).Nodup ∧
    (build_bio_matrix (fun _ => ("biosphere3", "g")) (fun _ => ("Tech", "a"))
        [⟨0, 0, PyFloat.num 4⟩, ⟨1, 0, PyFloat.num 5⟩]
      = (bio_final_keys (fun _ => ("biosphere3", "g")) (fun _ => ("Tech", "a"))
          [⟨0, 0, PyFloat.num 4⟩, ⟨1, 0, PyFloat.num 5⟩]).zip
          ([⟨0, 0, PyFloat.num 4⟩, ⟨1, 0, PyFloat.num 5⟩].map CooEntry.val) ∧
     (build_bio_matrix (fun _ => ("biosphere3", "g")) (fun _ => ("Tech", "a"))
        [⟨0, 0, PyFloat.num 4⟩, ⟨1, 0, PyFloat.num 5⟩]).length = 2) :=
  ⟨by decide,
   c4_collision_disambiguation (fun _ => ("biosphere3", "g")) (fun _ => ("Tech", "a"))
     [⟨0, 0, PyFloat.num 4⟩, ⟨1, 0, PyFloat.num 5⟩] (by decide)⟩

/-- Claim C3 counterexample: the report has an `"LCI"` grouping whose only leaf is a
non-biosphere flow key whose target key is in the table with a different
value (`1` vs `7`), yet — because `"Waste"` is empty and the `"LCI"` block is
nested inside the `"Waste"` loop — the call returns with the table untouched
and no error, contradicting the claim that the step runs whenever `"LCI"` is
present, independent of the `"Waste"` grouping. -/
theorem c3_lci_counterexample :
    update_techmatrix "P"
        { processFamily := "x", technosphere := [], waste := [], biosphere := [],
          lci := some [("y", [("m", [((("db", "n") : SKey), PyFloat.num 7)])])] }
        [(((("db", "n") : SKey), ("P_product", "y_to_m")), PyFloat.num 1)]
      = ([(((("db", "n") : SKey), ("P_product", "y_to_m")), PyFloat.num 1)], none) := by
  decide

/-- Claim C3 (amended): the `"LCI"` block is nested inside the `"Waste"`
(respectively `"Biosphere"`) material loop: it runs once after each
material's entries — zero times when the grouping is empty — rather than as
an independent step; when it runs it is exactly the pass over the flattened
`"LCI"` leaves (non-biosphere leaves for the technosphere applier, biosphere
leaves for the biosphere applier, with the `_to_` target-key derivation and
the shared validation). -/
theorem c3_lci_nesting :
    (∀ (pname fam : String) (bioD : PyDict String (PyDict SKey PyFloat))
        (lci : Option LciDict) (t : TTable),
      update_techmatrix pname
          { processFamily := fam, technosphere := [], waste := [],
            biosphere := bioD, lci := lci } t = (t, none)) ∧
    (∀ (pname fam mat : String) (L : LciDict) (bioD : PyDict String (PyDict SKey PyFloat))
        (t : TTable),
      update_techmatrix pname
          { processFamily := fam, technosphere := [], waste := [(mat, [])],
            biosphere := bioD, lci := some L } t
        = runSteps (lciTechStep pname) t (lciPairs L)) ∧
    (∀ (pname fam : String) (techD : PyDict String (PyDict SKey PyFloat))
        (wasteD : PyDict String (PyDict WKey PyFloat)) (lci : Option LciDict) (b : BTable),
      update_biomatrix pname
          { processFamily := fam, technosphere := techD, waste := wasteD,
            biosphere := [], lci := lci } b = (b, none)) ∧
    (∀ (pname fam mat : String) (L : LciDict) (techD : PyDict String (PyDict SKey PyFloat))
        (wasteD : PyDict String (PyDict WKey PyFloat)) (b : BTable),
      update_biomatrix pname
          { processFamily := fam, technosphere := techD, waste := wasteD,
            biosphere := [(mat, [])], lci := some L } b
        = runSteps (lciBioStep pname) b (lciPairs L)) :=
  ⟨fun pname fam bioD lci t => update_techmatrix_waste_empty pname fam bioD lci t,
   fun pname fam mat L bioD t => update_techmatrix_lci_focus pname fam mat L bioD t,
   fun pname fam techD wasteD lci b => update_biomatrix_bio_empty pname fam techD wasteD lci b,
   fun pname fam mat L techD wasteD b =>
     update_biomatrix_lci_focus pname fam mat L techD wasteD b⟩

/-- Claim C2 counterexample: with the report exactly as the claim states it — the
`"Waste"` counterpart key being the tuple `("Out", "Rejects")` — line 163's
`material_ + "_" + key2` concatenates a string with a tuple, so the call
raises `TypeError` and assigns nothing; the table entry keeps its old value
`1` instead of the claimed `5.0`. -/
theorem c2_transfer_station_counterexample :
    update_techmatrix "TS1"
        { processFamily := "Transfer_Station", technosphere := [],
          waste := [("DryRes_Plastic", [(Sum.inr (("Out", "Rejects") : SKey), PyFloat.num 5)])],
          biosphere := [], lci := none }
        [((("TS1_product", "Plastic_Rejects"), ("TS1", "DryRes_Plastic")), PyFloat.num 1)]
      = ([((("TS1_product", "Plastic_Rejects"), ("TS1", "DryRes_Plastic")), PyFloat.num 1)],
         some PyErr.typeError) := by
  decide

/-- Claim C2 (amended): with the counterpart key being the plain string `"Rejects"`
(the code appends the whole counterpart key, which must be a string; a tuple
counterpart key raises `TypeError`), the Transfer-Station report assigns
`5.0` to `(("TS1_product", "Plastic_Rejects"), ("TS1", "DryRes_Plastic"))`:
the product half joins the stripped material name `"Plastic"` with the
counterpart key, and the counterpart half keeps the unstripped
`"DryRes_Plastic"`. -/
theorem c2_transfer_station_strip (t : TTable)
    (h : ((("TS1_product", "Plastic_Rejects"), ("TS1", "DryRes_Plastic")) : TechKey) ∈ dkeys t) :
    update_techmatrix "TS1"
        { processFamily := "Transfer_Station", technosphere := [],
          waste := [("DryRes_Plastic", [(Sum.inl "Rejects", PyFloat.num 5)])],
          biosphere := [], lci := none } t
      = (dset t (("TS1_product", "Plastic_Rejects"), ("TS1", "DryRes_Plastic")) (PyFloat.num 5),
         none) := by
  have hstep : wasteEntryStep "TS1" "Transfer_Station" "DryRes_Plastic"
      (t, (none : Option String)) (Sum.inl "Rejects", PyFloat.num 5)
      = ((dset t (("TS1_product", "Plastic_Rejects"), ("TS1", "DryRes_Plastic")) (PyFloat.num 5),
          some "Plastic"), none) := by
    simp only [wasteEntryStep]
    rw [show stripTS "Transfer_Station" "DryRes_Plastic" none = some "Plastic" from rfl]
    show (((applyGuarded (("TS1_product", "Plastic_Rejects"), ("TS1", "DryRes_Plastic"))
            (PyFloat.num 5) t).1, some "Plastic"),
          (applyGuarded (("TS1_product", "Plastic_Rejects"), ("TS1", "DryRes_Plastic"))
            (PyFloat.num 5) t).2) = _
    rw [applyGuarded_ok (show (PyFloat.num 5).isnan = false from rfl) h]
  have hMat : wasteMaterialStep "TS1" "Transfer_Station" none (t, (none : Option String))
      ("DryRes_Plastic", [(Sum.inl "Rejects", PyFloat.num 5)])
      = ((dset t (("TS1_product", "Plastic_Rejects"), ("TS1", "DryRes_Plastic")) (PyFloat.num 5),
          some "Plastic"), none) := by
    simp only [wasteMaterialStep]
    simp only [runSteps]
    rw [hstep]
  show (match runSteps (wasteMaterialStep "TS1" "Transfer_Station" none)
          (t, (none : Option String)) [("DryRes_Plastic", [(Sum.inl "Rejects", PyFloat.num 5)])] with
        | (st, e) => (st.1, e)) = _
  simp only [runSteps]
  rw [hMat]

/-- Witness for C2 (amended) at a concrete table. -/
theorem c2_transfer_station_strip_witness :
    (((("TS1_product", "Plastic_Rejects"), ("TS1", "DryRes_Plastic")) : TechKey) ∈
      dkeys [((("TS1_product", "Plastic_Rejects"), ("TS1", "DryRes_Plastic")), PyFloat.num 1)]) ∧
    update_techmatrix "TS1"
        { processFamily := "Transfer_Station", technosphere := [],
          waste := [("DryRes_Plastic", [(Sum.inl "Rejects", PyFloat.num 5)])],
          biosphere := [], lci := none }
        [((("TS1_product", "Plastic_Rejects"), ("TS1", "DryRes_Plastic")), PyFloat.num 1)]
      = (dset [((("TS1_product", "Plastic_Rejects"), ("TS1", "DryRes_Plastic")), PyFloat.num 1)]
          (("TS1_product", "Plastic_Rejects"), ("TS1", "DryRes_Plastic")) (PyFloat.num 5),
         none) :=
  ⟨by decide,
   c2_transfer_station_strip
     [((("TS1_product", "Plastic_Rejects"), ("TS1", "DryRes_Plastic")), PyFloat.num 1)]
     (by decide)⟩

/-- Claim C10: in `update_techmatrix`, when the process family is
`Transfer_Station`, a `"Waste"` material without one of the four recognized
prefixes leaves `material_` unassigned: for the first waste entry processed
the call fails with `UnboundLocalError`, and otherwise the stripped name left
over from the previous material is silently reused in the derived product
key — the unprefixed material name itself is never used for the product half. -/
theorem c10_strip_unbound_or_stale :
    (∀ (pname mat : String) (k : String) (v : PyFloat) (t : TTable),
      mat.take 6 ≠ "DryRes" → mat.take 6 ≠ "WetRes" →
      mat.take 3 ≠ "ORG" → mat.take 3 ≠ "REC" →
      update_techmatrix pname
          { processFamily := "Transfer_Station", technosphere := [],
            waste := [(mat, [(Sum.inl k, v)])], biosphere := [], lci := none } t
        = (t, some PyErr.unboundLocal)) ∧
    (∀ (pname m1 m2 s1 s2 : String) (v1 v2 : PyFloat) (t : TTable),
      m1.take 6 = "DryRes" →
      m2.take 6 ≠ "DryRes" → m2.take 6 ≠ "WetRes" → m2.take 3 ≠ "ORG" → m2.take 3 ≠ "REC" →
      v1.isnan = false → v2.isnan = false →
      (((pname ++ "_product", m1.drop 7 ++ "_" ++ s1), (pname, m1)) : TechKey) ∈ dkeys t →
      (((pname ++ "_product", m1.drop 7 ++ "_" ++ s2), (pname, m2)) : TechKey) ∈ dkeys t →
      update_techmatrix pname
          { processFamily := "Transfer_Station", technosphere := [],
            waste := [(m1, [(Sum.inl s1, v1)]), (m2, [(Sum.inl s2, v2)])],
            biosphere := [], lci := none } t
        = (dset (dset t ((pname ++ "_product", m1.drop 7 ++ "_" ++ s1), (pname, m1)) v1)
            ((pname ++ "_product", m1.drop 7 ++ "_" ++ s2), (pname, m2)) v2, none)) := by
  constructor
  · intro pname mat k v t h1 h2 h3 h4
    have hstrip : stripTS "Transfer_Station" mat none = none := by
      simp [stripTS, h1, h2, h3, h4]
    have hstep : wasteEntryStep pname "Transfer_Station" mat (t, (none : Option String))
        (Sum.inl k, v) = ((t, (none : Option String)), some PyErr.unboundLocal) := by
      simp only [wasteEntryStep]
      rw [hstrip]
    have hMat : wasteMaterialStep pname "Transfer_Station" none (t, (none : Option String))
        (mat, [(Sum.inl k, v)]) = ((t, (none : Option String)), some PyErr.unboundLocal) := by
      simp only [wasteMaterialStep]
      simp only [runSteps]
      rw [hstep]
    rw [update_techmatrix_tech_empty, wasteSection_eq_from, wasteSectionFrom_cons_err [] hMat]
  · intro pname m1 m2 s1 s2 v1 v2 t hm1 h1 h2 h3 h4 hv1 hv2 hk1 hk2
    have hstrip1 : stripTS "Transfer_Station" m1 none = some (m1.drop 7) := by
      simp [stripTS, hm1]
    have hstrip2 : stripTS "Transfer_Station" m2 (some (m1.drop 7)) = some (m1.drop 7) := by
      simp [stripTS, h1, h2, h3, h4]
    have hstep1 : wasteEntryStep pname "Transfer_Station" m1 (t, (none : Option String))
        (Sum.inl s1, v1)
        = ((dset t ((pname ++ "_product", m1.drop 7 ++ "_" ++ s1), (pname, m1)) v1,
            some (m1.drop 7)), none) := by
      simp only [wasteEntryStep]
      rw [hstrip1]
      show (((applyGuarded ((pname ++ "_product", m1.drop 7 ++ "_" ++ s1), (pname, m1)) v1 t).1,
            some (m1.drop 7)),
            (applyGuarded ((pname ++ "_product", m1.drop 7 ++ "_" ++ s1), (pname, m1)) v1 t).2) = _
      rw [applyGuarded_ok hv1 hk1]
    have hMat1 : wasteMaterialStep pname "Transfer_Station" none (t, (none : Option String))
        (m1, [(Sum.inl s1, v1)])
        = ((dset t ((pname ++ "_product", m1.drop 7 ++ "_" ++ s1), (pname, m1)) v1,
            some (m1.drop 7)), none) := by
      simp only [wasteMaterialStep]
      simp only [runSteps]
      rw [hstep1]
    have hk2b : (((pname ++ "_product", m1.drop 7 ++ "_" ++ s2), (pname, m2)) : TechKey) ∈
        dkeys (dset t ((pname ++ "_product", m1.drop 7 ++ "_" ++ s1), (pname, m1)) v1) := by
      rw [dkeys_dset_of_mem v1 hk1]
      exact hk2
    have hstep2 : wasteEntryStep pname "Transfer_Station" m2
        (dset t ((pname ++ "_product", m1.drop 7 ++ "_" ++ s1), (pname, m1)) v1,
          some (m1.drop 7)) (Sum.inl s2, v2)
        = ((dset (dset t ((pname ++ "_product", m1.drop 7 ++ "_" ++ s1), (pname, m1)) v1)
              ((pname ++ "_product", m1.drop 7 ++ "_" ++ s2), (pname, m2)) v2,
            some (m1.drop 7)), none) := by
      simp only [wasteEntryStep]
      rw [hstrip2]
      show (((applyGuarded ((pname ++ "_product", m1.drop 7 ++ "_" ++ s2), (pname, m2)) v2
              (dset t ((pname ++ "_product", m1.drop 7 ++ "_" ++ s1), (pname, m1)) v1)).1,
            some (m1.drop 7)),
            (applyGuarded ((pname ++ "_product", m1.drop 7 ++ "_" ++ s2), (pname, m2)) v2
              (dset t ((pname ++ "_product", m1.drop 7 ++ "_" ++ s1), (pname, m1)) v1)).2) = _
      rw [applyGuarded_ok hv2 hk2b]
    have hMat2 : wasteMaterialStep pname "Transfer_Station" none
        (dset t ((pname ++ "_product", m1.drop 7 ++ "_" ++ s1), (pname, m1)) v1,
          some (m1.drop 7)) (m2, [(Sum.inl s2, v2)])
        = ((dset (dset t ((pname ++ "_product", m1.drop 7 ++ "_" ++ s1), (pname, m1)) v1)
              ((pname ++ "_product", m1.drop 7 ++ "_" ++ s2), (pname, m2)) v2,
            some (m1.drop 7)), none) := by
      simp only [wasteMaterialStep]
      simp only [runSteps]
      rw [hstep2]
    rw [update_techmatrix_tech_empty, wasteSection_eq_from,
      wasteSectionFrom_cons_ok [(m2, [(Sum.inl s2, v2)])] hMat1,
      wasteSectionFrom_cons_ok [] hMat2, wasteSectionFrom_nil]

/-- Witness for C10 at concrete materials: `"Foo_X"` has no recognized prefix;
alone it raises `UnboundLocalError`, and after `"DryRes_A"` it silently
reuses the stale stripped name `"A"`. -/
theorem c10_strip_unbound_or_stale_witness :
    ("Foo_X".take 6 ≠ "DryRes" ∧ "Foo_X".take 6 ≠ "WetRes" ∧
     "Foo_X".take 3 ≠ "ORG" ∧ "Foo_X".take 3 ≠ "REC" ∧ "DryRes_A".take 6 = "DryRes") ∧
    update_techmatrix "TS1"
        { processFamily := "Transfer_Station", technosphere := [],
          waste := [("Foo_X", [(Sum.inl "LF", PyFloat.num 1)])], biosphere := [], lci := none }
        ([] : TTable)
      = (([] : TTable), some PyErr.unboundLocal) ∧
    update_techmatrix "TS1"
        { processFamily := "Transfer_Station", technosphere := [],
          waste := [("DryRes_A", [(Sum.inl "LF", PyFloat.num 1)]),
                    ("Foo_X", [(Sum.inl "WTE", PyFloat.num 2)])],
          biosphere := [], lci := none }
        [((("TS1_product", "A_LF"), ("TS1", "DryRes_A")), PyFloat.num 0),
         ((("TS1_product", "A_WTE"), ("TS1", "Foo_X")), PyFloat.num 0)]
      = (dset (dset [((("TS1_product", "A_LF"), ("TS1", "DryRes_A")), PyFloat.num 0),
                     ((("TS1_product", "A_WTE"), ("TS1", "Foo_X")), PyFloat.num 0)]
                (("TS1" ++ "_product", "DryRes_A".drop 7 ++ "_" ++ "LF"), ("TS1", "DryRes_A"))
                (PyFloat.num 1))
              (("TS1" ++ "_product", "DryRes_A".drop 7 ++ "_" ++ "WTE"), ("TS1", "Foo_X"))
              (PyFloat.num 2), none) :=
  ⟨⟨by decide, by decide, by decide, by decide, by decide⟩,
   c10_strip_unbound_or_stale.1 "TS1" "Foo_X" "LF" (PyFloat.num 1) []
     (by decide) (by decide) (by decide) (by decide),
   c10_strip_unbound_or_stale.2 "TS1" "DryRes_A" "Foo_X" "LF" "WTE"
     (PyFloat.num 1) (PyFloat.num 2)
     [((("TS1_product", "A_LF"), ("TS1", "DryRes_A")), PyFloat.num 0),
      ((("TS1_product", "A_WTE"), ("TS1", "Foo_X")), PyFloat.num 0)]
     (by decide) (by decide) (by decide) (by decide) (by decide) rfl rfl
     (by decide) (by decide)⟩

/-- Claim C1, round-trip:  Build the key-indexed tables from the COO entries of the
solved matrices, read the values back in insertion order, and rebuild: the
result is `Except.ok` of a matrix with the original shape and the original
value at every coordinate (`cooSum entries`, implicit zero where no entry is
stored) — for the technosphere provided the composite keys are duplicate-free
(true of a solved matrix, whose index dictionaries are bijections and whose
COO coordinates are distinct), and for the biosphere provided the storage
keys after collision disambiguation are duplicate-free. -/
theorem c1_roundtrip (prodRev actRev bioRev bactRev : Nat → SKey)
    (shape bshape : Nat × Nat) (tentries bentries : List CooEntry)
    (h1 : (tentries.map (techKeyOf prodRev actRev)).Nodup)
    (h2 : (bio_final_keys bioRev bactRev bentries).Nodup) :
    rebuild_technosphere_matrix (tentries.map CooEntry.row) (tentries.map CooEntry.col) shape
        ((build_tech_matrix prodRev actRev tentries).map Prod.snd)
      = Except.ok { shape := shape, entry := fun i j => cooSum tentries i j } ∧
    rebuild_biosphere_matrix (bentries.map CooEntry.row) (bentries.map CooEntry.col) bshape
        ((build_bio_matrix bioRev bactRev bentries).map Prod.snd)
      = Except.ok { shape := bshape, entry := fun i j => cooSum bentries i j } := by
  constructor
  · have hv : (build_tech_matrix prodRev actRev tentries).map Prod.snd
        = tentries.map CooEntry.val := by
      rw [build_tech_matrix_nodup h1, List.map_map]
      rfl
    rw [hv]
    show csrFromCoo (tentries.map CooEntry.row) (tentries.map CooEntry.col)
        (tentries.map CooEntry.val) shape = _
    unfold csrFromCoo
    rw [if_pos ⟨by simp, by simp⟩, zipEntries_map]
  · have hlen : (bio_final_keys bioRev bactRev bentries).length
        = (bentries.map CooEntry.val).length := by
      rw [bio_final_keys, bio_final_keys_go_length, List.length_map]
    have hv : (build_bio_matrix bioRev bactRev bentries).map Prod.snd
        = bentries.map CooEntry.val := by
      rw [build_bio_matrix_eq_zip h2]
      exact List.map_snd_zip _ _ (le_of_eq hlen.symm)
    rw [hv]
    show csrFromCoo (bentries.map CooEntry.row) (bentries.map CooEntry.col)
        (bentries.map CooEntry.val) bshape = _
    unfold csrFromCoo
    rw [if_pos ⟨by simp, by simp⟩, zipEntries_map]

/-- Witness for C1 at a concrete two-entry technosphere and a concrete
biosphere with one collision pair. -/
theorem c1_roundtrip_witness :
    (([⟨0, 0, PyFloat.num 3⟩, ⟨1, 1, PyFloat.num 4⟩].map
        (techKeyOf (fun i => ("P", toString i)) (fun j => ("A", toString j)))).Nodup) ∧
    ((bio_final_keys (fun _ => ("biosphere3", "f")) (fun j => ("A", toString j))
        [⟨0, 0, PyFloat.num 6⟩, ⟨1, 0, PyFloat.num 7⟩]).Nodup) ∧
    (rebuild_technosphere_matrix
        ([⟨0, 0, PyFloat.num 3⟩, ⟨1, 1, PyFloat.num 4⟩].map CooEntry.row)
        ([⟨0, 0, PyFloat.num 3⟩, ⟨1, 1, PyFloat.num 4⟩].map CooEntry.col) (2, 2)
        ((build_tech_matrix (fun i => ("P", toString i)) (fun j => ("A", toString j))
          [⟨0, 0, PyFloat.num 3⟩, ⟨1, 1, PyFloat.num 4⟩]).map Prod.snd)
      = Except.ok { shape := (2, 2)
                    entry := fun i j => cooSum [⟨0, 0, PyFloat.num 3⟩, ⟨1, 1, PyFloat.num 4⟩] i j } ∧
     rebuild_biosphere_matrix
        ([⟨0, 0, PyFloat.num 6⟩, ⟨1, 0, PyFloat.num 7⟩].map CooEntry.row)
        ([⟨0, 0, PyFloat.num 6⟩, ⟨1, 0, PyFloat.num 7⟩].map CooEntry.col) (2, 1)
        ((build_bio_matrix (fun _ => ("biosphere3", "f")) (fun j => ("A", toString j))
          [⟨0, 0, PyFloat.num 6⟩, ⟨1, 0, PyFloat.num 7⟩]).map Prod.snd)
      = Except.ok { shape := (2, 1)
                    entry := fun i j => cooSum [⟨0, 0, PyFloat.num 6⟩, ⟨1, 0, PyFloat.num 7⟩] i j }) :=
  ⟨by decide, by decide,
   c1_roundtrip (fun i => ("P", toString i)) (fun j => ("A", toString j))
     (fun _ => ("biosphere3", "f")) (fun j => ("A", toString j)) (2, 2) (2, 1)
     [⟨0, 0, PyFloat.num 3⟩, ⟨1, 1, PyFloat.num 4⟩]
     [⟨0, 0, PyFloat.num 6⟩, ⟨1, 0, PyFloat.num 7⟩] (by decide) (by decide)⟩

/-- Claim C9, idempotence of apply:  If an applier call completes without error,
running the identical call again on the resulting table leaves it unchanged:
values are overwritten, never accumulated, and an entry whose new value
equals the stored value is a no-op.  (A Python dict always has duplicate-free
keys, whence the `Nodup` hypothesis.) -/
theorem c9_apply_idempotent :
    (∀ (pname : String) (r : Report) (t t' : TTable), (dkeys t).Nodup →
      update_techmatrix pname r t = (t', none) →
      update_techmatrix pname r t' = (t', none)) ∧
    (∀ (pname : String) (r : Report) (b b' : BTable), (dkeys b).Nodup →
      update_biomatrix pname r b = (b', none) →
      update_biomatrix pname r b' = (b', none)) := by
  constructor
  · intro pname r t t' hnd h
    obtain ⟨ws, hmem, ht', hall⟩ := (good_update_techmatrix pname r).2 t t' h
    have hk : dkeys t' = dkeys t := by
      rw [ht']
      exact dkeys_foldDsets hmem
    have h2 : update_techmatrix pname r t' = (foldDsets t' ws, none) := hall t' hk
    rw [h2, ht', foldDsets_idem hmem hnd]
  · intro pname r b b' hnd h
    obtain ⟨ws, hmem, hb', hall⟩ := (good_update_biomatrix pname r).2 b b' h
    have hk : dkeys b' = dkeys b := by
      rw [hb']
      exact dkeys_foldDsets hmem
    have h2 : update_biomatrix pname r b' = (foldDsets b' ws, none) := hall b' hk
    rw [h2, hb', foldDsets_idem hmem hnd]

/-- Witness for C9 at a concrete accepted report on each applier. -/
theorem c9_apply_idempotent_witness :
    ((dkeys [(((("db", "k") : SKey), ("P", "m")), PyFloat.num 1)]).Nodup ∧
     update_techmatrix "P"
        { processFamily := "x", technosphere := [("m", [(("db", "k"), PyFloat.num 2)])],
          waste := [], biosphere := [], lci := none }
        [(((("db", "k") : SKey), ("P", "m")), PyFloat.num 1)]
      = ([(((("db", "k") : SKey), ("P", "m")), PyFloat.num 2)], none) ∧
     update_techmatrix "P"
        { processFamily := "x", technosphere := [("m", [(("db", "k"), PyFloat.num 2)])],
          waste := [], biosphere := [], lci := none }
        [(((("db", "k") : SKey), ("P", "m")), PyFloat.num 2)]
      = ([(((("db", "k") : SKey), ("P", "m")), PyFloat.num 2)], none)) ∧
    ((dkeys [(((Sum.inl ("biosphere3", "c"), ("P", "m")) : BioKey), PyFloat.num 1)]).Nodup ∧
     update_biomatrix "P"
        { processFamily := "x", technosphere := [], waste := [],
          biosphere := [("m", [(("biosphere3", "c"), PyFloat.num 9)])], lci := none }
        [(((Sum.inl ("biosphere3", "c"), ("P", "m")) : BioKey), PyFloat.num 1)]
      = ([(((Sum.inl ("biosphere3", "c"), ("P", "m")) : BioKey), PyFloat.num 9)], none) ∧
     update_biomatrix "P"
        { processFamily := "x", technosphere := [], waste := [],
          biosphere := [("m", [(("biosphere3", "c"), PyFloat.num 9)])], lci := none }
        [(((Sum.inl ("biosphere3", "c"), ("P", "m")) : BioKey), PyFloat.num 9)]
      = ([(((Sum.inl ("biosphere3", "c"), ("P", "m")) : BioKey), PyFloat.num 9)], none)) :=
  ⟨⟨by decide, by decide,
    c9_apply_idempotent.1 "P"
      { processFamily := "x", technosphere := [("m", [(("db", "k"), PyFloat.num 2)])],
        waste := [], biosphere := [], lci := none }
      [(((("db", "k") : SKey), ("P", "m")), PyFloat.num 1)]
      [(((("db", "k") : SKey), ("P", "m")), PyFloat.num 2)] (by decide) (by decide)⟩,
   ⟨by decide, by decide,
    c9_apply_idempotent.2 "P"
      { processFamily := "x", technosphere := [], waste := [],
        biosphere := [("m", [(("biosphere3", "c"), PyFloat.num 9)])], lci := none }
      [(((Sum.inl ("biosphere3", "c"), ("P", "m")) : BioKey), PyFloat.num 1)]
      [(((Sum.inl ("biosphere3", "c"), ("P", "m")) : BioKey), PyFloat.num 9)]
      (by decide) (by decide)⟩⟩

/-- Claim C6, fatal on missing key without rollback.  A report entry (here in the
`"Technosphere"` grouping of `update_techmatrix`, at any position, and in the
`"Biosphere"` grouping of `update_biomatrix` with no `"LCI"` key) whose
derived target key is absent from the table and whose value is not NaN makes
the applier raise `KeyError` (`UnknownExchange`) and abort the call; the
returned table carries exactly the mutations applied before the failing
entry — no rollback. -/
theorem c6_unknown_exchange_no_rollback :
    (∀ (pname fam : String) (wasteD : PyDict String (PyDict WKey PyFloat))
        (bioD : PyDict String (PyDict SKey PyFloat)) (lci : Option LciDict)
        (M1 M2 : PyDict String (PyDict SKey PyFloat)) (mat : String)
        (E1 E2 : PyDict SKey PyFloat) (k : SKey) (v : PyFloat) (t : TTable),
      (∀ mv ∈ M1, ∀ kv ∈ mv.2, (kv.2).isnan = false ∧
        ((kv.1, (pname, mv.1)) : TechKey) ∈ dkeys t) →
      (∀ kv ∈ E1, (kv.2).isnan = false ∧ ((kv.1, (pname, mat)) : TechKey) ∈ dkeys t) →
      v.isnan = false → ((k, (pname, mat)) : TechKey) ∉ dkeys t →
      update_techmatrix pname
          { processFamily := fam, technosphere := M1 ++ (mat, E1 ++ (k, v) :: E2) :: M2,
            waste := wasteD, biosphere := bioD, lci := lci } t
        = (foldDsets t (techWrites pname M1 ++ techEntryWrites pname mat E1),
           some PyErr.keyError)) ∧
    (∀ (pname fam : String) (techD : PyDict String (PyDict SKey PyFloat))
        (wasteD : PyDict String (PyDict WKey PyFloat))
        (M1 M2 : PyDict String (PyDict SKey PyFloat)) (mat : String)
        (E1 E2 : PyDict SKey PyFloat) (k : SKey) (v : PyFloat) (b : BTable),
      (∀ mv ∈ M1, ∀ kv ∈ mv.2, (kv.2).isnan = false ∧
        ((Sum.inl kv.1, (pname, mv.1)) : BioKey) ∈ dkeys b) →
      (∀ kv ∈ E1, (kv.2).isnan = false ∧ ((Sum.inl kv.1, (pname, mat)) : BioKey) ∈ dkeys b) →
      v.isnan = false → ((Sum.inl k, (pname, mat)) : BioKey) ∉ dkeys b →
      update_biomatrix pname
          { processFamily := fam, technosphere := techD, waste := wasteD,
            biosphere := M1 ++ (mat, E1 ++ (k, v) :: E2) :: M2, lci := none } b
        = (foldDsets b (bioWrites pname M1 ++ bioEntryWrites pname mat E1),
           some PyErr.keyError)) := by
  constructor
  · intro pname fam wasteD bioD lci M1 M2 mat E1 E2 k v t hok1 hok2 hv hmiss
    have hkeysAll : ∀ w ∈ techWrites pname M1 ++ techEntryWrites pname mat E1,
        w.1 ∈ dkeys t := by
      intro w hw
      rcases List.mem_append.mp hw with hw | hw
      · simp only [techWrites, List.mem_flatMap, techEntryWrites, List.mem_map] at hw
        obtain ⟨mv, hmv, kv, hkv, hwe⟩ := hw
        rw [← hwe]
        exact (hok1 mv hmv kv hkv).2
      · simp only [techEntryWrites, List.mem_map] at hw
        obtain ⟨kv, hkv, hwe⟩ := hw
        rw [← hwe]
        exact (hok2 kv hkv).2
    have hk : dkeys (foldDsets t (techWrites pname M1 ++ techEntryWrites pname mat E1))
        = dkeys t := dkeys_foldDsets hkeysAll
    exact update_techmatrix_tech_abort pname fam wasteD bioD lci M1 M2 mat E1 E2 k v t
      PyErr.keyError hok1 hok2
      (applyGuarded_missing hv (by rw [hk]; exact hmiss))
  · intro pname fam techD wasteD M1 M2 mat E1 E2 k v b hok1 hok2 hv hmiss
    have hkeysAll : ∀ w ∈ bioWrites pname M1 ++ bioEntryWrites pname mat E1,
        w.1 ∈ dkeys b := by
      intro w hw
      rcases List.mem_append.mp hw with hw | hw
      · simp only [bioWrites, List.mem_flatMap, bioEntryWrites, List.mem_map] at hw
        obtain ⟨mv, hmv, kv, hkv, hwe⟩ := hw
        rw [← hwe]
        exact (hok1 mv hmv kv hkv).2
      · simp only [bioEntryWrites, List.mem_map] at hw
        obtain ⟨kv, hkv, hwe⟩ := hw
        rw [← hwe]
        exact (hok2 kv hkv).2
    have hk : dkeys (foldDsets b (bioWrites pname M1 ++ bioEntryWrites pname mat E1))
        = dkeys b := dkeys_foldDsets hkeysAll
    exact update_biomatrix_bio_abort pname fam techD wasteD M1 M2 mat E1 E2 k v b
      PyErr.keyError hok1 hok2
      (applyGuarded_missing hv (by rw [hk]; exact hmiss))

/-- Witness for C6: after one good entry, a missing-key entry raises
`KeyError` and the good entry's write stays in place, on each applier. -/
theorem c6_unknown_exchange_no_rollback_witness :
    ((PyFloat.num 9).isnan = false ∧
     (((("db", "bad") : SKey), ("P", "m")) : TechKey) ∉
        dkeys [(((("db", "a") : SKey), ("P", "m")), PyFloat.num 0)] ∧
     update_techmatrix "P"
        { processFamily := "x",
          technosphere := [] ++ ("m", [(("db", "a"), PyFloat.num 1)]
            ++ (("db", "bad"), PyFloat.num 9) :: []) :: [],
          waste := [], biosphere := [], lci := none }
        [(((("db", "a") : SKey), ("P", "m")), PyFloat.num 0)]
      = (foldDsets [(((("db", "a") : SKey), ("P", "m")), PyFloat.num 0)]
          (techWrites "P" [] ++ techEntryWrites "P" "m" [(("db", "a"), PyFloat.num 1)]),
         some PyErr.keyError)) ∧
    ((((Sum.inl ("biosphere3", "bad"), ("P", "m")) : BioKey) ∉
        dkeys [(((Sum.inl ("biosphere3", "c"), ("P", "m")) : BioKey), PyFloat.num 0)]) ∧
     update_biomatrix "P"
        { processFamily := "x", technosphere := [], waste := [],
          biosphere := [] ++ ("m", [(("biosphere3", "c"), PyFloat.num 2)]
            ++ (("biosphere3", "bad"), PyFloat.num 9) :: []) :: [],
          lci := none }
        [(((Sum.inl ("biosphere3", "c"), ("P", "m")) : BioKey), PyFloat.num 0)]
      = (foldDsets [(((Sum.inl ("biosphere3", "c"), ("P", "m")) : BioKey), PyFloat.num 0)]
          (bioWrites "P" [] ++ bioEntryWrites "P" "m" [(("biosphere3", "c"), PyFloat.num 2)]),
         some PyErr.keyError)) :=
  ⟨⟨rfl, by decide,
    c6_unknown_exchange_no_rollback.1 "P" "x" [] [] none [] [] "m"
      [(("db", "a"), PyFloat.num 1)] [] ("db", "bad") (PyFloat.num 9)
      [(((("db", "a") : SKey), ("P", "m")), PyFloat.num 0)]
      (by simp) (by decide) rfl (by decide)⟩,
   ⟨by decide,
    c6_unknown_exchange_no_rollback.2 "P" "x" [] [] [] [] "m"
      [(("biosphere3", "c"), PyFloat.num 2)] [] ("biosphere3", "bad") (PyFloat.num 9)
      [(((Sum.inl ("biosphere3", "c"), ("P", "m")) : BioKey), PyFloat.num 0)]
      (by simp) (by decide) rfl (by decide)⟩⟩

/-- Claim C7 counterexample: a NaN amount under `"Waste"` whose counterpart key is
a tuple (the shape §6 of the spec gives every counterpart key) raises
`TypeError` from line 163's `material_ + "_" + key2` — not the claimed
`InvalidValue` — because the key derivation runs before the NaN check. -/
theorem c7_nan_counterexample :
    update_techmatrix "P"
        { processFamily := "x", technosphere := [],
          waste := [("m", [(Sum.inr (("db", "k") : SKey), PyFloat.nan)])],
          biosphere := [], lci := none } ([] : TTable)
      = (([] : TTable), some PyErr.typeError) := by
  decide

/-- Claim C7 (amended): a NaN report value raises `ValueError` (`InvalidValue`) at
the entry where it occurs, before any further entries of the grouping are
applied and regardless of whether its target key exists (the NaN check
precedes the key-existence check) — provided the entry's key derivation
itself succeeds; under `"Waste"`, an unbound `material_` or a tuple
counterpart key raises `UnboundLocalError`/`TypeError` at line 163 before
the NaN check.  Shown for the `"Technosphere"` grouping (any position), the
`"Waste"` grouping (single non-Transfer-Station material, any entry
position), one pass of the technosphere `"LCI"` block (any leaf position),
and the `"Biosphere"` grouping (any position); a NaN is never applied to
the table. -/
theorem c7_nan_invalid_value :
    (∀ (pname fam : String) (wasteD : PyDict String (PyDict WKey PyFloat))
        (bioD : PyDict String (PyDict SKey PyFloat)) (lci : Option LciDict)
        (M1 M2 : PyDict String (PyDict SKey PyFloat)) (mat : String)
        (E1 E2 : PyDict SKey PyFloat) (k : SKey) (t : TTable),
      (∀ mv ∈ M1, ∀ kv ∈ mv.2, (kv.2).isnan = false ∧
        ((kv.1, (pname, mv.1)) : TechKey) ∈ dkeys t) →
      (∀ kv ∈ E1, (kv.2).isnan = false ∧ ((kv.1, (pname, mat)) : TechKey) ∈ dkeys t) →
      update_techmatrix pname
          { processFamily := fam,
            technosphere := M1 ++ (mat, E1 ++ (k, PyFloat.nan) :: E2) :: M2,
            waste := wasteD, biosphere := bioD, lci := lci } t
        = (foldDsets t (techWrites pname M1 ++ techEntryWrites pname mat E1),
           some PyErr.valueError)) ∧
    (∀ (pname fam : String) (bioD : PyDict String (PyDict SKey PyFloat)) (mat : String)
        (E1 : PyDict String PyFloat) (sk : String) (E2 : PyDict WKey PyFloat) (t : TTable),
      fam ≠ "Transfer_Station" →
      (∀ kv ∈ E1, (kv.2).isnan = false ∧
        (((pname ++ "_product", mat ++ "_" ++ kv.1), (pname, mat)) : TechKey) ∈ dkeys t) →
      update_techmatrix pname
          { processFamily := fam, technosphere := [],
            waste := [(mat, wasteInl E1 ++ (Sum.inl sk, PyFloat.nan) :: E2)],
            biosphere := bioD, lci := none } t
        = (foldDsets t (wasteWritesNoTS pname mat E1), some PyErr.valueError)) ∧
    (∀ (pname fam mat : String) (bioD : PyDict String (PyDict SKey PyFloat)) (L : LciDict)
        (P1 P2 : List (String × String × SKey × PyFloat)) (y m : String) (n : SKey)
        (t : TTable),
      lciPairs L = P1 ++ (y, m, n, PyFloat.nan) :: P2 →
      (∀ q ∈ P1, bioInKey q.2.2.1 = true ∨
        ((q.2.2.2).isnan = false ∧ lciTechKey pname q ∈ dkeys t)) →
      bioInKey n = false →
      update_techmatrix pname
          { processFamily := fam, technosphere := [], waste := [(mat, [])],
            biosphere := bioD, lci := some L } t
        = (foldDsets t (lciTechWrites pname P1), some PyErr.valueError)) ∧
    (∀ (pname fam : String) (techD : PyDict String (PyDict SKey PyFloat))
        (wasteD : PyDict String (PyDict WKey PyFloat))
        (M1 M2 : PyDict String (PyDict SKey PyFloat)) (mat : String)
        (E1 E2 : PyDict SKey PyFloat) (k : SKey) (b : BTable),
      (∀ mv ∈ M1, ∀ kv ∈ mv.2, (kv.2).isnan = false ∧
        ((Sum.inl kv.1, (pname, mv.1)) : BioKey) ∈ dkeys b) →
      (∀ kv ∈ E1, (kv.2).isnan = false ∧ ((Sum.inl kv.1, (pname, mat)) : BioKey) ∈ dkeys b) →
      update_biomatrix pname
          { processFamily := fam, technosphere := techD, waste := wasteD,
            biosphere := M1 ++ (mat, E1 ++ (k, PyFloat.nan) :: E2) :: M2, lci := none } b
        = (foldDsets b (bioWrites pname M1 ++ bioEntryWrites pname mat E1),
           some PyErr.valueError)) := by
  refine ⟨?_, ?_, ?_, ?_⟩
  · intro pname fam wasteD bioD lci M1 M2 mat E1 E2 k t hok1 hok2
    exact update_techmatrix_tech_abort pname fam wasteD bioD lci M1 M2 mat E1 E2 k
      PyFloat.nan t PyErr.valueError hok1 hok2 (applyGuarded_nan _ rfl)
  · intro pname fam bioD mat E1 sk E2 t hfam hok
    exact update_techmatrix_waste_abort pname fam bioD mat E1 sk PyFloat.nan E2 t
      PyErr.valueError hfam hok (applyGuarded_nan _ rfl)
  · intro pname fam mat bioD L P1 P2 y m n t hpairs hok hb
    rw [update_techmatrix_lci_focus, hpairs]
    exact runSteps_lciTech_abort P1 P2 (y, m, n, PyFloat.nan) PyErr.valueError hok hb
      (applyGuarded_nan _ rfl)
  · intro pname fam techD wasteD M1 M2 mat E1 E2 k b hok1 hok2
    exact update_biomatrix_bio_abort pname fam techD wasteD M1 M2 mat E1 E2 k
      PyFloat.nan b PyErr.valueError hok1 hok2 (applyGuarded_nan _ rfl)

/-- Witness for C7 (amended), instantiating all four conjuncts at concrete
reports with one good entry before the NaN entry (an absent target key for
the NaN entry in the first conjunct, exhibiting NaN-before-key-check). -/
theorem c7_nan_invalid_value_witness :
    (update_techmatrix "P"
        { processFamily := "x",
          technosphere := [] ++ ("m", [(("db", "a"), PyFloat.num 1)]
            ++ (("db", "bad"), PyFloat.nan) :: []) :: [],
          waste := [], biosphere := [], lci := none }
        [(((("db", "a") : SKey), ("P", "m")), PyFloat.num 0)]
      = (foldDsets [(((("db", "a") : SKey), ("P", "m")), PyFloat.num 0)]
          (techWrites "P" [] ++ techEntryWrites "P" "m" [(("db", "a"), PyFloat.num 1)]),
         some PyErr.valueError)) ∧
    (("x" : String) ≠ "Transfer_Station" ∧
     update_techmatrix "P"
        { processFamily := "x", technosphere := [],
          waste := [("m", wasteInl [("d", PyFloat.num 1)] ++ (Sum.inl "e", PyFloat.nan) :: [])],
          biosphere := [], lci := none }
        [((("P_product", "m_d"), ("P", "m")), PyFloat.num 0)]
      = (foldDsets [((("P_product", "m_d"), ("P", "m")), PyFloat.num 0)]
          (wasteWritesNoTS "P" "m" [("d", PyFloat.num 1)]), some PyErr.valueError)) ∧
    (lciPairs [("y", [("m2", [((("db", "n") : SKey), PyFloat.nan)])])]
        = [] ++ ("y", "m2", (("db", "n") : SKey), PyFloat.nan) :: [] ∧
     bioInKey ("db", "n") = false ∧
     update_techmatrix "P"
        { processFamily := "x", technosphere := [], waste := [("m", [])],
          biosphere := [], lci := some [("y", [("m2", [(("db", "n"), PyFloat.nan)])])] }
        ([] : TTable)
      = (foldDsets ([] : TTable) (lciTechWrites "P" []), some PyErr.valueError)) ∧
    (update_biomatrix "P"
        { processFamily := "x", technosphere := [], waste := [],
          biosphere := [] ++ ("m", [(("biosphere3", "c"), PyFloat.num 2)]
            ++ (("biosphere3", "bad"), PyFloat.nan) :: []) :: [],
          lci := none }
        [(((Sum.inl ("biosphere3", "c"), ("P", "m")) : BioKey), PyFloat.num 0)]
      = (foldDsets [(((Sum.inl ("biosphere3", "c"), ("P", "m")) : BioKey), PyFloat.num 0)]
          (bioWrites "P" [] ++ bioEntryWrites "P" "m" [(("biosphere3", "c"), PyFloat.num 2)]),
         some PyErr.valueError)) :=
  ⟨c7_nan_invalid_value.1 "P" "x" [] [] none [] [] "m"
     [(("db", "a"), PyFloat.num 1)] [] ("db", "bad")
     [(((("db", "a") : SKey), ("P", "m")), PyFloat.num 0)] (by simp) (by decide),
   ⟨by decide,
    c7_nan_invalid_value.2.1 "P" "x" [] "m" [("d", PyFloat.num 1)] "e" []
      [((("P_product", "m_d"), ("P", "m")), PyFloat.num 0)] (by decide) (by decide)⟩,
   ⟨by decide, by decide,
    c7_nan_invalid_value.2.2.1 "P" "x" "m" []
      [("y", [("m2", [(("db", "n"), PyFloat.nan)])])]
      [] [] "y" "m2" ("db", "n") ([] : TTable) (by decide) (by simp) (by decide)⟩,
   c7_nan_invalid_value.2.2.2 "P" "x" [] [] [] [] "m"
     [(("biosphere3", "c"), PyFloat.num 2)] [] ("biosphere3", "bad")
     [(((Sum.inl ("biosphere3", "c"), ("P", "m")) : BioKey), PyFloat.num 0)]
     (by simp) (by decide)⟩

end Swolfpy
